import Mathlib

/-! Ratings service (`src/services/ratingsService.js`)

A shallow embedding of the three exported operations `saveUserRating`,
`getUserRating` and `getMovieAverageRating`, of the JavaScript built-ins they
call (`parseInt`, template-literal string conversion, `+`, `/`, `??`) and of
the document store they talk to (`doc`, `setDoc`, `getDoc`, `collection`,
`query`, `where`, `getDocs`, `serverTimestamp`).

Modelling conventions.

* A JavaScript Number is an IEEE 754 binary64 value.  The Numbers that
  `parseInt` and `+` on its results produce are integer-valued, `NaN` or
  infinite (`JSNum`); the integer `n` in `JSNum.int n` is the exact value, and
  `IsNumber n` says that `n` is representable.  The quotient `total / count`
  is any finite binary64 value, given by its exact rational value, or `NaN` or
  infinite (`JSQuot`).  Conversions and arithmetic round to nearest, ties to
  even (`toNumber`, `divDouble`); `Number::toString` prints the shortest
  decimal that reads back as the same Number, in exponential notation from
  `10^21` on.  The sign of zero is not kept, and the loop counter `count` is a
  natural number (query snapshots hold fewer than `2^53` documents).
* Strings are Lean `String`s; `userId` is a String, as the JSDoc says, while
  `movieId` and `rating` may be Numbers or Strings.
* The remote store is a finite map from document references (collection name
  and document id, any string) to documents; the backend operations follow
  the description of the backend in the specification.
* An `async` function is a function from the world before the call to its
  settlement (`Except JSError α`: resolved or rejected) and the world after.
* The world holds the imported handle `db` (only its truthiness matters), the
  documents of the remote store, the server clock, the error the backend
  raises (if any), the list of backend calls performed, and the console.
-/

namespace RatingsService

set_option maxRecDepth 100000

/-! ## JavaScript values -/

/-- A JavaScript Number as far as `parseInt` and `+` on its results can produce
one: an integer-valued binary64 value, `NaN`, `Infinity` or `-Infinity`.  The
sign of zero is not kept (`-0 === 0`). -/
inductive JSNum where
  | int (n : Int)
  | nan
  | posInf
  | negInf
  deriving DecidableEq, Repr

/-- The result of the division `total / count`: a finite binary64 value, given
by its exact rational value, `NaN`, `Infinity` or `-Infinity`. -/
inductive JSQuot where
  | rat (q : ℚ)
  | nan
  | posInf
  | negInf
  deriving DecidableEq

/-- The values passed for `movieId` and `rating`: a Number or a String. -/
inductive JSValue where
  | num (n : JSNum)
  | str (s : String)
  deriving DecidableEq, Repr

/-- A thrown value: an `Error` with its message and, for backend errors, a code. -/
structure JSError where
  message : String
  code : Option String := none
  deriving DecidableEq, Repr

/-- Equality of settlements is decidable. -/
instance instDecidableEqExcept {ε α : Type} [DecidableEq ε] [DecidableEq α] :
    DecidableEq (Except ε α)
  | .ok a, .ok b => if h : a = b then isTrue (by rw [h]) else isFalse (fun h2 => h (by cases h2; rfl))
  | .error a, .error b =>
    if h : a = b then isTrue (by rw [h]) else isFalse (fun h2 => h (by cases h2; rfl))
  | .ok _, .error _ => isFalse (fun h => by cases h)
  | .error _, .ok _ => isFalse (fun h => by cases h)

/-! ## Binary64 rounding -/

/-- The floor of the base-2 logarithm of `n` (0 for `n = 0`), computed with
`fuel ≥ n` halvings. -/
def log2Floor : Nat → Nat → Nat
  | 0, _ => 0
  | fuel + 1, n => if n < 2 then 0 else log2Floor fuel (n / 2) + 1

/-- The binade of the positive quotient `N / D`: the exponent `E` with
`2^E ≤ N / D < 2^(E+1)`. -/
def binade (N D : Nat) : Int :=
  let E0 : Int := (log2Floor N N : Int) - (log2Floor D D : Int)
  if D * 2 ^ E0.toNat ≤ N * 2 ^ (-E0).toNat then E0 else E0 - 1

/-- Round to nearest, ties to even: the integer nearest to `N / D`. -/
def roundHalfEven (N D : Nat) : Nat :=
  let f := N / D
  let r := N % D
  if 2 * r < D then f
  else if D < 2 * r then f + 1
  else if f % 2 = 0 then f else f + 1

/-- The binary64 value nearest to the positive quotient `N / D`, ties to even,
as a significand `M` and an exponent `q` (the value is `M * 2^q`): 53
significant bits, and a least exponent of `-1074` (subnormals). -/
def roundDiv (N D : Nat) : Nat × Int :=
  let q : Int := max (binade N D - 52) (-1074)
  (roundHalfEven (N * 2 ^ (-q).toNat) (D * 2 ^ q.toNat), q)

/-- The bound `2^1024` just past the largest finite Number, written as a product
of four equal powers. -/
def overflowBound : Nat := 2 ^ 256 * 2 ^ 256 * 2 ^ 256 * 2 ^ 256

/-- The binary64 value nearest to the positive quotient `N / D` as a fraction
`A / B` with `B` a power of two; `none` when the rounded value reaches `2^1024`
(overflow to Infinity). -/
def nearestDouble (N D : Nat) : Option (Nat × Nat) :=
  let A := (roundDiv N D).1 * 2 ^ (roundDiv N D).2.toNat
  let B := 2 ^ (-(roundDiv N D).2).toNat
  if overflowBound * B ≤ A then none else some (A, B)

/-- The Number value for a mathematical integer `z`: the nearest binary64 value. -/
def toNumber (z : Int) : JSNum :=
  if z = 0 then .int 0
  else
    match nearestDouble z.natAbs 1 with
    | none => if z < 0 then .negInf else .posInf
    | some (A, B) => if z < 0 then .int (-((A / B : Nat) : Int)) else .int ((A / B : Nat) : Int)

/-- The Number value for the exact quotient `t / c` with `c > 0`: what the
division of the Number `t` by the Number `c` gives. -/
def divDouble (t : Int) (c : Nat) : JSQuot :=
  if t = 0 then .rat 0
  else
    match nearestDouble t.natAbs c with
    | none => if t < 0 then .negInf else .posInf
    | some (A, B) => if t < 0 then .rat (mkRat (-(A : Int)) B) else .rat (mkRat (A : Int) B)

/-- Whether the integer `n` is a Number (is exactly representable in binary64). -/
def IsNumber (n : Int) : Prop := toNumber n = .int n

/-- Being a Number is decidable. -/
instance instDecidableIsNumber (n : Int) : Decidable (IsNumber n) :=
  inferInstanceAs (Decidable (toNumber n = .int n))

/-! ## Number to String -/

/-- The candidates for the digits of a positive integer Number `x`, shortest
first: for `k = 1, 2, ...` significant digits the two multiples of the
matching power of ten that enclose `x`, the one closer to `x` first (on a tie
the one with the even last digit). -/
def shortestCandidates (x : Nat) : List Nat :=
  (List.range (Nat.toDigits 10 x).length).flatMap fun i =>
    let p := 10 ^ ((Nat.toDigits 10 x).length - (i + 1))
    let lo := x / p * p
    let hi := lo + p
    if x - lo < hi - x then [lo, hi]
    else if hi - x < x - lo then [hi, lo]
    else if (x / p) % 2 = 0 then [lo, hi] else [hi, lo]

/-- The integer `s * 10^(n-k)` of `Number::toString`: the decimal with the
fewest significant digits whose Number value is `x`, the closest to `x` among
those.  Below `2^53` consecutive integers are different Numbers, so it is `x`. -/
def shortestDecimal (x : Nat) : Nat :=
  if x < 2 ^ 53 then x
  else ((shortestCandidates x).find?
    (fun (v : Nat) => decide (toNumber (Int.ofNat v) = .int (Int.ofNat x)))).getD x

/-- Exponential notation for the decimal `v` of at least 22 digits: its first
significant digit, then `.` and the other significant digits if there are any,
then `e+` and the exponent. -/
def exponentForm (v : Nat) : String :=
  let digits := Nat.toDigits 10 v
  match (digits.reverse.dropWhile (fun c => c == '0')).reverse with
  | [] => "0"
  | d :: rest =>
    String.mk ([d] ++ (if rest.isEmpty then [] else '.' :: rest) ++ ['e', '+']
      ++ Nat.toDigits 10 (digits.length - 1))

/-- The operation `Number::toString` (radix 10) on a positive integer Number. -/
def natToString (x : Nat) : String :=
  if x < 10 ^ 21 then toString (shortestDecimal x) else exponentForm (shortestDecimal x)

/-- The operation `Number::toString` (radix 10) on the modelled Numbers. -/
def numberToString : JSNum → String
  | .int n => if n < 0 then "-" ++ natToString n.natAbs else natToString n.natAbs
  | .nan => "NaN"
  | .posInf => "Infinity"
  | .negInf => "-Infinity"

/-! ## Parsing and arithmetic -/

/-- The abstract operation `ToString` on the modelled values. -/
def jsToString : JSValue → String
  | .num n => numberToString n
  | .str s => s

/-- Code points of `StrWhiteSpaceChar` (WhiteSpace and LineTerminator). -/
def strWhiteSpaceCodes : List Nat :=
  [0x09, 0x0A, 0x0B, 0x0C, 0x0D, 0x20, 0xA0, 0x1680,
   0x2000, 0x2001, 0x2002, 0x2003, 0x2004, 0x2005, 0x2006, 0x2007, 0x2008, 0x2009, 0x200A,
   0x2028, 0x2029, 0x202F, 0x205F, 0x3000, 0xFEFF]

/-- Whether a character is a `StrWhiteSpaceChar`. -/
def isStrWhiteSpaceChar (c : Char) : Bool :=
  strWhiteSpaceCodes.contains c.toNat

/-- The value of `c` as a digit, when it is a letter or a decimal digit. -/
def digitValue (c : Char) : Option Nat :=
  let n := c.toNat
  if 48 ≤ n ∧ n ≤ 57 then some (n - 48)
  else if 97 ≤ n ∧ n ≤ 122 then some (n - 87)
  else if 65 ≤ n ∧ n ≤ 90 then some (n - 55)
  else none

/-- Whether `c` is a radix-`R` digit. -/
def isRadixDigit (R : Nat) (c : Char) : Bool :=
  match digitValue c with
  | some d => decide (d < R)
  | none => false

/-- The mathematical integer denoted by a run of radix-`R` digits. -/
def digitsToNat (R : Nat) (Z : List Char) : Nat :=
  Z.foldl (fun acc c => acc * R + (digitValue c).getD 0) 0

/-- Steps 3-5 of `parseInt`: the sign and what follows it. -/
def splitSign : List Char → Int × List Char
  | '-' :: rest => (-1, rest)
  | '+' :: rest => (1, rest)
  | S => (1, S)

/-- Steps 8-10 of `parseInt` with `radix` undefined: radix 10, or 16 after a
`0x` / `0X` prefix, which is removed. -/
def splitRadix : List Char → Nat × List Char
  | '0' :: 'x' :: rest => (16, rest)
  | '0' :: 'X' :: rest => (16, rest)
  | S => (10, S)

/-- The function `parseInt(string)` on an input that already is a String: the
Number value for the signed integer that the leading digits denote. -/
def parseIntString (inputString : String) : JSNum :=
  let S := inputString.toList.dropWhile isStrWhiteSpaceChar
  let (sign, S) := splitSign S
  let (R, S) := splitRadix S
  let Z := S.takeWhile (isRadixDigit R)
  if Z.isEmpty then .nan
  else toNumber (sign * (digitsToNat R Z : Int))

/-- The function `parseInt(value)` with no radix: the argument goes through
`ToString` first. -/
def parseInt (value : JSValue) : JSNum :=
  parseIntString (jsToString value)

/-- The operator `a ?? b`: `b` when `a` is `null` or `undefined` (`none`), else `a`. -/
def nullishCoalesce (a b : Option JSNum) : Option JSNum :=
  match a with
  | some v => some v
  | none => b

/-- Number addition `a + b`: the Number value for the exact sum. -/
def JSNum.add : JSNum → JSNum → JSNum
  | .int a, .int b => toNumber (a + b)
  | .int _, .posInf => .posInf
  | .int _, .negInf => .negInf
  | .posInf, .int _ => .posInf
  | .posInf, .posInf => .posInf
  | .negInf, .int _ => .negInf
  | .negInf, .negInf => .negInf
  | .posInf, .negInf => .nan
  | .negInf, .posInf => .nan
  | .nan, _ => .nan
  | _, .nan => .nan

/-- Number division `total / count` for a Number `total` and a counter `count`:
the Number value for the exact quotient. -/
def JSNum.div : JSNum → Nat → JSQuot
  | .nan, _ => .nan
  | .posInf, _ => .posInf
  | .negInf, _ => .negInf
  | .int t, 0 => if 0 < t then .posInf else if t < 0 then .negInf else .nan
  | .int t, c + 1 => divDouble t (c + 1)

/-! ## The document store -/

/-- Server time. -/
abbrev Timestamp := Nat

/-- A document reference: collection name and document id. -/
structure DocRef where
  collection : String
  id : String
  deriving DecidableEq, Repr

/-- A document of the `ratings` collection, as `saveUserRating` writes it. -/
structure RatingDoc where
  userId : String
  movieId : JSNum
  rating : JSNum
  createdAt : Timestamp
  updatedAt : Timestamp
  deriving DecidableEq, Repr

/-- The documents of the remote store: a finite map from references to documents. -/
abbrev Store := AList (fun _ : DocRef => RatingDoc)

/-- A query: the documents of `collection` whose field `field` equals `value`. -/
structure Query where
  collection : String
  field : String
  value : JSNum
  deriving DecidableEq, Repr

/-- A call made to the backend. -/
inductive Call where
  | setDoc (ref : DocRef)
  | getDoc (ref : DocRef)
  | getDocs (q : Query)
  deriving DecidableEq, Repr

/-- Everything the service can observe or change. -/
structure World where
  /-- Whether the imported handle `db` is truthy (the store is configured). -/
  db : Bool
  /-- The documents held by the remote store. -/
  docs : Store
  /-- The server time that `serverTimestamp()` resolves to. -/
  clock : Timestamp
  /-- The error with which backend calls fail, if they fail. -/
  fault : Option JSError
  /-- The backend calls performed so far, oldest first. -/
  calls : List Call
  /-- What `console.error` has printed so far, oldest first. -/
  console : List (String × JSError)

/-- The call `doc(db, collection, id)`. -/
def doc (collection id : String) : DocRef := ⟨collection, id⟩

/-- The call `serverTimestamp()`, resolved by the server when the write is applied. -/
def serverTimestamp (w : World) : Timestamp := w.clock

/-- Modelled from the spec: the backend's set-document, `await setDoc(ref, data)`,
a full replacement of the document at `ref`; it is recorded in the call log and
fails with the backend's error when there is one, leaving the documents as
they were. -/
def setDoc (w : World) (ref : DocRef) (data : RatingDoc) : Except JSError Unit × World :=
  let w := { w with calls := w.calls ++ [Call.setDoc ref] }
  match w.fault with
  | some e => (.error e, w)
  | none => (.ok (), { w with docs := w.docs.insert ref data })

/-- Modelled from the spec: the backend's get-document-by-key, `await getDoc(ref)`;
the snapshot is `none` when the document does not exist. -/
def getDoc (w : World) (ref : DocRef) : Except JSError (Option RatingDoc) × World :=
  let w := { w with calls := w.calls ++ [Call.getDoc ref] }
  match w.fault with
  | some e => (.error e, w)
  | none => (.ok (w.docs.lookup ref), w)

/-- The call `collection(db, name)`: a reference to the collection `name`. -/
def collection (name : String) : String := name

/-- The call `query(ref, where(field, '==', value))`. -/
def query (ref : String) (field : String) (value : JSNum) : Query :=
  { collection := ref, field := field, value := value }

/-- The Number held by the field `name` of a document, if that field holds a Number. -/
def RatingDoc.numberField (d : RatingDoc) (name : String) : Option JSNum :=
  if name = "movieId" then some d.movieId
  else if name = "rating" then some d.rating
  else none

/-- Modelled from the spec: the backend's query-by-equality-filter, the documents
of the collection whose field equals the value (the whole result set). -/
def runQuery (docs : Store) (q : Query) : List RatingDoc :=
  (docs.entries.filter
    (fun e => e.1.collection = q.collection ∧ e.2.numberField q.field = some q.value)).map
    (fun e => e.2)

/-- Modelled from the spec: the backend call `await getDocs(q)`, resolving to the
documents of the query snapshot. -/
def getDocs (w : World) (q : Query) : Except JSError (List RatingDoc) × World :=
  let w := { w with calls := w.calls ++ [Call.getDocs q] }
  match w.fault with
  | some e => (.error e, w)
  | none => (.ok (runQuery w.docs q), w)

/-- The call `console.error(label, error)`. -/
def consoleError (w : World) (label : String) (error : JSError) : World :=
  { w with console := w.console ++ [(label, error)] }

/-! ## The service -/

/-- The value `saveUserRating` resolves to. -/
structure SaveResult where
  success : Bool
  id : String
  deriving DecidableEq, Repr

/-- The value `getMovieAverageRating` resolves to. -/
structure AverageResult where
  average : JSQuot
  count : Nat
  deriving DecidableEq

/-- The function `saveUserRating(userId, movieId, rating)`. -/
def saveUserRating (w : World) (userId : String) (movieId rating : JSValue) :
    Except JSError SaveResult × World :=
  if !w.db then
    (.error { message := "Firebase is not configured" }, w)
  else
    let id := userId ++ "_" ++ numberToString (parseInt movieId)
    let ratingRef := doc "ratings" id
    match setDoc w ratingRef
        { userId := userId
          movieId := parseInt movieId
          rating := parseInt rating
          createdAt := serverTimestamp w
          updatedAt := serverTimestamp w } with
    | (.ok _, w) => (.ok { success := true, id := id }, w)
    | (.error error, w) =>
      let w := consoleError w "Error saving rating:" error
      (.error error, w)

/-- The function `getUserRating(userId, movieId)`; `none` is `null`. -/
def getUserRating (w : World) (userId : String) (movieId : JSValue) :
    Except JSError (Option JSNum) × World :=
  if !w.db then
    (.ok none, w)
  else
    let id := userId ++ "_" ++ numberToString (parseInt movieId)
    let ratingRef := doc "ratings" id
    match getDoc w ratingRef with
    | (.ok ratingSnap, w) =>
      match ratingSnap with
      | some data => (.ok (nullishCoalesce (some data.rating) none), w)
      | none => (.ok none, w)
    | (.error error, w) =>
      let w := consoleError w "Error getting rating:" error
      (.ok none, w)

/-- The loop `querySnapshot.forEach(doc => { total += doc.data().rating; count++ })`
started from `total` and `count`. -/
def forEachRating (querySnapshot : List RatingDoc) (total : JSNum) (count : Nat) : JSNum × Nat :=
  querySnapshot.foldl (fun acc d => (acc.1.add d.rating, acc.2 + 1)) (total, count)

/-- The function `getMovieAverageRating(movieId)`. -/
def getMovieAverageRating (w : World) (movieId : JSValue) :
    Except JSError AverageResult × World :=
  if !w.db then
    (.ok { average := .rat 0, count := 0 }, w)
  else
    let ratingsRef := collection "ratings"
    let q := query ratingsRef "movieId" (parseInt movieId)
    match getDocs w q with
    | (.ok querySnapshot, w) =>
      if querySnapshot.isEmpty then
        (.ok { average := .rat 0, count := 0 }, w)
      else
        let (total, count) := forEachRating querySnapshot (.int 0) 0
        (.ok { average := total.div count, count := count }, w)
    | (.error error, w) =>
      let w := consoleError w "Error getting average rating:" error
      (.ok { average := .rat 0, count := 0 }, w)

/-! ## Definitions used to state the properties -/

/-- A world with an empty store, configured and not failing. -/
def World.fresh (clock : Timestamp) : World :=
  { db := true, docs := ∅, clock := clock, fault := none, calls := [], console := [] }

/-- The scenario of the specification: on an empty store `u1` rates movie 42
with 4, then `u2` rates it with 2. -/
def scenarioWorld : World :=
  (saveUserRating
    (saveUserRating (World.fresh 0) "u1" (.num (.int 42)) (.num (.int 4))).2
    "u2" (.num (.int 42)) (.num (.int 2))).2

/-- Three users rate movie 42 with 1, 2 and 2 on an empty store. -/
def thirdsWorld : World :=
  (saveUserRating
    (saveUserRating
      (saveUserRating (World.fresh 0) "u1" (.num (.int 42)) (.num (.int 1))).2
      "u2" (.num (.int 42)) (.num (.int 2))).2
    "u3" (.num (.int 42)) (.num (.int 2))).2

/-- One more user rates movie 42 with 9007199254740996. -/
def saveLarge (userId : String) (w : World) : World :=
  (saveUserRating w userId (.num (.int 42)) (.num (.int 9007199254740996))).2

/-- Six users rate movie 42 with 9007199254740996 on an empty store. -/
def sixLargeWorld : World :=
  saveLarge "u6" (saveLarge "u5" (saveLarge "u4" (saveLarge "u3" (saveLarge "u2"
    (saveLarge "u1" (World.fresh 0))))))

/-- The same world at server time `t`. -/
def World.atTime (w : World) (t : Timestamp) : World :=
  { w with clock := t }

/-- The world after `saveUserRating(userId, movieId, rating)`. -/
def afterSave (w : World) (userId : String) (movieId rating : JSValue) : World :=
  (saveUserRating w userId movieId rating).2

/-- The composite key as the specification words it: `userId`, then `_`, then
the decimal form of the integer `movieId`. -/
def compositeKey (userId : String) (movieId : Int) : String :=
  userId ++ "_" ++ toString movieId

/-- The reference mean of the specification: for ratings `v1..vn` with `n ≥ 1`
the exact quotient `(v1 + ... + vn) / n` with count `n`, and `{average: 0,
count: 0}` for no ratings. -/
def referenceAverage (vs : List Int) : AverageResult :=
  if vs.length = 0 then { average := .rat 0, count := 0 }
  else { average := .rat ((vs.sum : ℚ) / (vs.length : ℚ)), count := vs.length }

/-- The mean as the service computes it when the sum of the ratings is exact:
the Number nearest to the exact quotient `(v1 + ... + vn) / n` (round to
nearest, ties to even) with count `n`, and `{average: 0, count: 0}` for no
ratings. -/
def roundedAverage (vs : List Int) : AverageResult :=
  if vs.length = 0 then { average := .rat 0, count := 0 }
  else { average := divDouble vs.sum vs.length, count := vs.length }

/-- The sum of the magnitudes of the ratings `v1..vn`. -/
def magnitudeSum (vs : List Int) : Nat :=
  (vs.map Int.natAbs).sum

/-- The documents of `collection` whose `movieId` field equals `value`. -/
def whereMovieId (docs : Store) (collection : String) (value : JSNum) : List RatingDoc :=
  (docs.entries.filter (fun e => e.1.collection = collection ∧ e.2.movieId = value)).map
    (fun e => e.2)

/-- The `rating` fields of the documents of `ratings` whose `movieId` field is `movieId`. -/
def matchingRatings (docs : Store) (movieId : Int) : List JSNum :=
  (whereMovieId docs "ratings" (.int movieId)).map (fun d => d.rating)

/-- Whether a character is one of `0` ... `9`. -/
def isDecimalDigit (c : Char) : Prop := 48 ≤ c.toNat ∧ c.toNat ≤ 57

/-- Being a decimal digit is decidable. -/
instance instDecidableIsDecimalDigit (c : Char) : Decidable (isDecimalDigit c) :=
  inferInstanceAs (Decidable (48 ≤ c.toNat ∧ c.toNat ≤ 57))

/-- The characters of the decimal form of a natural number. -/
def decimalChars (n : Nat) : List Char :=
  if n = 0 then ['0'] else (Nat.digits 10 n).reverse.map Nat.digitChar

/-! # Lemmas -/

/-! ## Binary64 rounding -/

theorem two_pow_53_le_overflowBound : 2 ^ 53 ≤ overflowBound := by
  have h1 : 2 ^ 53 ≤ 2 ^ 256 := Nat.pow_le_pow_right (by decide) (by decide)
  have h2 : 0 < 2 ^ 256 := by positivity
  unfold overflowBound
  calc 2 ^ 53 ≤ 2 ^ 256 := h1
    _ ≤ 2 ^ 256 * 2 ^ 256 := Nat.le_mul_of_pos_right _ h2
    _ ≤ 2 ^ 256 * 2 ^ 256 * 2 ^ 256 := Nat.le_mul_of_pos_right _ h2
    _ ≤ 2 ^ 256 * 2 ^ 256 * 2 ^ 256 * 2 ^ 256 := Nat.le_mul_of_pos_right _ h2

theorem log2Floor_spec (fuel : Nat) :
    ∀ n, 0 < n → n ≤ fuel →
      2 ^ log2Floor fuel n ≤ n ∧ n < 2 ^ (log2Floor fuel n + 1) := by
  induction fuel with
  | zero => intro n h1 h2; omega
  | succ fuel ih =>
    intro n hn hle
    unfold log2Floor
    by_cases h : n < 2
    · rw [if_pos h]
      constructor
      · simpa using hn
      · simpa using h
    · rw [if_neg h]
      obtain ⟨h1, h2⟩ := ih (n / 2) (by omega) (by omega)
      generalize log2Floor fuel (n / 2) = l at h1 h2
      constructor
      · rw [pow_succ]; omega
      · rw [pow_succ]; omega

theorem roundHalfEven_ge (N D K : Nat) (hD : 0 < D) (h : K * D ≤ N) :
    K ≤ roundHalfEven N D := by
  have hf : K ≤ N / D := (Nat.le_div_iff_mul_le hD).mpr h
  unfold roundHalfEven
  simp only
  split_ifs <;> omega

theorem div_lt_of_mod_pos (N D K : Nat) (h : N ≤ K * D) (hr : 0 < N % D) :
    N / D < K := by
  by_contra hc
  push_neg at hc
  have h1 : K * D ≤ N / D * D := Nat.mul_le_mul_right D hc
  have h2 : N / D * D + N % D = N := by
    rw [Nat.mul_comm]; exact Nat.div_add_mod N D
  omega

theorem roundHalfEven_le (N D K : Nat) (hD : 0 < D) (h : N ≤ K * D) :
    roundHalfEven N D ≤ K := by
  have hf : N / D ≤ K := by
    apply Nat.div_le_of_le_mul
    rw [Nat.mul_comm]; exact h
  unfold roundHalfEven
  simp only
  split_ifs with h1 h2 h3
  · exact hf
  · exact div_lt_of_mod_pos N D K h (by omega)
  · exact hf
  · exact div_lt_of_mod_pos N D K h (by omega)

theorem binade_le (N D : Nat) (hN : 0 < N) (hD : 0 < D) (h : N < 2 ^ 53 * D) :
    binade N D ≤ 52 := by
  obtain ⟨hN1, _⟩ := log2Floor_spec N N hN le_rfl
  obtain ⟨_, hD2⟩ := log2Floor_spec D D hD le_rfl
  unfold binade
  simp only
  generalize log2Floor N N = lN at hN1
  generalize log2Floor D D = lD at hD2
  split_ifs with hc
  · by_contra hgt
    push_neg at hgt
    have e1 : ((lN : Int) - (lD : Int)).toNat = lN - lD := by omega
    have e2 : (-((lN : Int) - (lD : Int))).toNat = 0 := by omega
    rw [e1, e2, pow_zero, Nat.mul_one] at hc
    have h53 : 2 ^ 53 ≤ 2 ^ (lN - lD) := Nat.pow_le_pow_right (by norm_num) (by omega)
    have : D * 2 ^ 53 ≤ D * 2 ^ (lN - lD) := Nat.mul_le_mul_left D h53
    omega
  · by_contra hgt
    push_neg at hgt
    have hl : lD + 1 + 53 ≤ lN := by omega
    have h1 : 2 ^ (lD + 1 + 53) ≤ 2 ^ lN := Nat.pow_le_pow_right (by norm_num) hl
    rw [pow_add] at h1
    have h2 : D * 2 ^ 53 < 2 ^ (lD + 1) * 2 ^ 53 :=
      Nat.mul_lt_mul_of_pos_right hD2 (by positivity)
    omega

/-- For a quotient between the integers `K₁` and `K₂ < 2^53` the rounding keeps
a non-positive exponent and stays between `K₁` and `K₂`. -/
theorem nearestDouble_between (N D K₁ K₂ : Nat) (hN : 0 < N) (hD : 0 < D)
    (h1 : K₁ * D ≤ N) (h2 : N ≤ K₂ * D) (hK : K₂ < 2 ^ 53) :
    ∃ A j, nearestDouble N D = some (A, 2 ^ j) ∧ K₁ * 2 ^ j ≤ A ∧ A ≤ K₂ * 2 ^ j := by
  have hlt : N < 2 ^ 53 * D := by
    have : K₂ * D < 2 ^ 53 * D := Nat.mul_lt_mul_of_pos_right hK hD
    omega
  have hb := binade_le N D hN hD hlt
  have hq : (roundDiv N D).2 ≤ 0 := by
    unfold roundDiv
    simp only
    omega
  have hq0 : (roundDiv N D).2.toNat = 0 := by omega
  have hM : (roundDiv N D).1
      = roundHalfEven (N * 2 ^ (-(roundDiv N D).2).toNat) D := by
    have hq0' : (max (binade N D - 52) (-1074)).toNat = 0 := hq0
    unfold roundDiv
    simp only [hq0', pow_zero, Nat.mul_one]
  have hlo : K₁ * 2 ^ (-(roundDiv N D).2).toNat ≤ (roundDiv N D).1 := by
    rw [hM]
    apply roundHalfEven_ge _ _ _ hD
    calc K₁ * 2 ^ (-(roundDiv N D).2).toNat * D
        = K₁ * D * 2 ^ (-(roundDiv N D).2).toNat := by ring
      _ ≤ N * 2 ^ (-(roundDiv N D).2).toNat := Nat.mul_le_mul_right _ h1
  have hhi : (roundDiv N D).1 ≤ K₂ * 2 ^ (-(roundDiv N D).2).toNat := by
    rw [hM]
    apply roundHalfEven_le _ _ _ hD
    calc N * 2 ^ (-(roundDiv N D).2).toNat
        ≤ K₂ * D * 2 ^ (-(roundDiv N D).2).toNat := Nat.mul_le_mul_right _ h2
      _ = K₂ * 2 ^ (-(roundDiv N D).2).toNat * D := by ring
  refine ⟨(roundDiv N D).1, (-(roundDiv N D).2).toNat, ?_, hlo, hhi⟩
  unfold nearestDouble
  simp only [hq0, pow_zero, Nat.mul_one]
  rw [if_neg]
  apply Nat.not_le_of_lt
  have hpos : 0 < 2 ^ (-(roundDiv N D).2).toNat := by positivity
  calc (roundDiv N D).1 ≤ K₂ * 2 ^ (-(roundDiv N D).2).toNat := hhi
    _ < 2 ^ 53 * 2 ^ (-(roundDiv N D).2).toNat := Nat.mul_lt_mul_of_pos_right hK hpos
    _ ≤ overflowBound * 2 ^ (-(roundDiv N D).2).toNat :=
        Nat.mul_le_mul_right _ two_pow_53_le_overflowBound

theorem mkRat_pow_between (A j : Nat) (k₁ k₂ : Int)
    (h1 : k₁ * (2 ^ j : Nat) ≤ (A : Int)) (h2 : (A : Int) ≤ k₂ * (2 ^ j : Nat)) :
    (k₁ : ℚ) ≤ mkRat A (2 ^ j) ∧ mkRat A (2 ^ j) ≤ (k₂ : ℚ) := by
  have hpos : (0 : ℚ) < ((2 ^ j : Nat) : ℚ) := by positivity
  rw [Rat.mkRat_eq_div]
  constructor
  · rw [le_div_iff₀ hpos]
    exact_mod_cast h1
  · rw [div_le_iff₀ hpos]
    exact_mod_cast h2

theorem mkRat_neg_pow_between (A j : Nat) (k₁ k₂ : Int)
    (h1 : k₁ * (2 ^ j : Nat) ≤ -(A : Int)) (h2 : -(A : Int) ≤ k₂ * (2 ^ j : Nat)) :
    (k₁ : ℚ) ≤ mkRat (-(A : Int)) (2 ^ j) ∧ mkRat (-(A : Int)) (2 ^ j) ≤ (k₂ : ℚ) := by
  have hpos : (0 : ℚ) < ((2 ^ j : Nat) : ℚ) := by positivity
  rw [Rat.mkRat_eq_div]
  constructor
  · rw [le_div_iff₀ hpos]
    exact_mod_cast h1
  · rw [div_le_iff₀ hpos]
    exact_mod_cast h2

/-- The quotient of a Number by a positive count lies between any two integers
of magnitude below `2^53` that enclose the exact quotient. -/
theorem divDouble_between (t : Int) (c : Nat) (k₁ k₂ : Int) (hc : 0 < c)
    (h1 : k₁ * c ≤ t) (h2 : t ≤ k₂ * c) (hk1 : -(2 ^ 53 : Int) < k₁) (hk2 : k₂ < 2 ^ 53) :
    ∃ r : ℚ, divDouble t c = .rat r ∧ (k₁ : ℚ) ≤ r ∧ r ≤ (k₂ : ℚ) := by
  have hcpos : (0 : Int) < c := by exact_mod_cast hc
  unfold divDouble
  by_cases h0 : t = 0
  · subst h0
    refine ⟨0, by simp, ?_, ?_⟩
    · have : k₁ ≤ 0 := by
        by_contra hh; push_neg at hh
        have := Int.mul_pos hh hcpos
        omega
      exact_mod_cast this
    · have : 0 ≤ k₂ := by
        by_contra hh; push_neg at hh
        have := Int.mul_neg_of_neg_of_pos hh hcpos
        omega
      exact_mod_cast this
  · rw [if_neg h0]
    by_cases hneg : t < 0
    · -- the magnitude lies between `-k₂` and `-k₁`
      have hk1' : k₁ < 0 := by
        by_contra hh; push_neg at hh
        have := Int.mul_nonneg hh hcpos.le
        omega
      have hb1 : (-k₂).toNat * c ≤ t.natAbs := by
        by_cases hk : 0 ≤ -k₂
        · have e : (((-k₂).toNat * c : Nat) : Int) = -k₂ * c := by
            push_cast; rw [Int.toNat_of_nonneg hk]
          have hab : (t.natAbs : Int) = -t := by omega
          have : (((-k₂).toNat * c : Nat) : Int) ≤ (t.natAbs : Int) := by
            rw [e, hab]; linarith
          exact_mod_cast this
        · have : (-k₂).toNat = 0 := by omega
          rw [this]; simp
      have hb2 : t.natAbs ≤ (-k₁).toNat * c := by
        have e : (((-k₁).toNat * c : Nat) : Int) = -k₁ * c := by
          push_cast; rw [Int.toNat_of_nonneg (by omega)]
        have hab : (t.natAbs : Int) = -t := by omega
        have : (t.natAbs : Int) ≤ (((-k₁).toNat * c : Nat) : Int) := by
          rw [e, hab]; linarith
        exact_mod_cast this
      obtain ⟨A, j, hA, hlo, hhi⟩ := nearestDouble_between t.natAbs c (-k₂).toNat (-k₁).toNat
        (by omega) hc hb1 hb2 (by omega)
      rw [hA]
      simp only [hneg, if_true]
      refine ⟨_, rfl, ?_⟩
      apply mkRat_neg_pow_between
      · have : ((A : Nat) : Int) ≤ (((-k₁).toNat * 2 ^ j : Nat) : Int) := by exact_mod_cast hhi
        push_cast at this
        rw [Int.toNat_of_nonneg (by omega)] at this
        push_cast
        linarith
      · by_cases hk : 0 ≤ -k₂
        · have : ((((-k₂).toNat * 2 ^ j : Nat)) : Int) ≤ (A : Int) := by exact_mod_cast hlo
          push_cast at this
          rw [Int.toNat_of_nonneg hk] at this
          push_cast
          linarith
        · have hp : (0 : Int) ≤ ((2 ^ j : Nat) : Int) := by positivity
          have hA0 : (0 : Int) ≤ (A : Int) := by positivity
          have : 0 ≤ k₂ * ((2 ^ j : Nat) : Int) := Int.mul_nonneg (by omega) hp
          linarith
    · have htpos : 0 < t := by omega
      have hk2' : 0 < k₂ := by
        by_contra hh; push_neg at hh
        have := Int.mul_nonpos_of_nonpos_of_nonneg hh hcpos.le
        omega
      have hb1 : k₁.toNat * c ≤ t.natAbs := by
        by_cases hk : 0 ≤ k₁
        · have e : ((k₁.toNat * c : Nat) : Int) = k₁ * c := by
            push_cast; rw [Int.toNat_of_nonneg hk]
          have : ((k₁.toNat * c : Nat) : Int) ≤ (t.natAbs : Int) := by
            rw [e, Int.natAbs_of_nonneg htpos.le]; exact h1
          exact_mod_cast this
        · have : k₁.toNat = 0 := by omega
          rw [this]; simp
      have hb2 : t.natAbs ≤ k₂.toNat * c := by
        have e : ((k₂.toNat * c : Nat) : Int) = k₂ * c := by
          push_cast; rw [Int.toNat_of_nonneg hk2'.le]
        have : (t.natAbs : Int) ≤ ((k₂.toNat * c : Nat) : Int) := by
          rw [e, Int.natAbs_of_nonneg htpos.le]; exact h2
        exact_mod_cast this
      obtain ⟨A, j, hA, hlo, hhi⟩ := nearestDouble_between t.natAbs c k₁.toNat k₂.toNat
        (by omega) hc hb1 hb2 (by omega)
      rw [hA]
      simp only [hneg, if_false]
      refine ⟨_, rfl, ?_⟩
      apply mkRat_pow_between
      · by_cases hk : 0 ≤ k₁
        · have : (((k₁.toNat * 2 ^ j : Nat)) : Int) ≤ (A : Int) := by exact_mod_cast hlo
          push_cast at this
          rw [Int.toNat_of_nonneg hk] at this
          push_cast
          linarith
        · have hp : (0 : Int) ≤ ((2 ^ j : Nat) : Int) := by positivity
          have hA0 : (0 : Int) ≤ (A : Int) := by positivity
          have : k₁ * ((2 ^ j : Nat) : Int) ≤ 0 :=
            Int.mul_nonpos_of_nonpos_of_nonneg (by omega) hp
          linarith
      · have : ((A : Nat) : Int) ≤ ((k₂.toNat * 2 ^ j : Nat) : Int) := by exact_mod_cast hhi
        push_cast at this
        rw [Int.toNat_of_nonneg hk2'.le] at this
        push_cast
        linarith

/-- Division is exact when the count divides the total and the quotient has
magnitude below `2^53`. -/
theorem divDouble_exact (k : Int) (c : Nat) (hc : 0 < c)
    (hk1 : -(2 ^ 53 : Int) < k) (hk2 : k < 2 ^ 53) :
    divDouble (k * c) c = .rat (k : ℚ) := by
  obtain ⟨r, hr, h1, h2⟩ := divDouble_between (k * c) c k k hc le_rfl le_rfl hk1 hk2
  rw [hr, le_antisymm h2 h1]

theorem roundHalfEven_one (N : Nat) : roundHalfEven N 1 = N := by
  simp [roundHalfEven, Nat.mod_one]

/-- The nearest Number to an integer is an integer. -/
theorem nearestDouble_one_dvd (N A B : Nat) (h : nearestDouble N 1 = some (A, B)) :
    0 < B ∧ B ∣ A := by
  unfold nearestDouble at h
  simp only at h
  split_ifs at h
  simp only [Option.some.injEq, Prod.mk.injEq] at h
  obtain ⟨hA, hB⟩ := h
  subst hA hB
  refine ⟨by positivity, ?_⟩
  by_cases hq : (roundDiv N 1).2 ≤ 0
  · have hq0 : (max (binade N 1 - 52) (-1074)).toNat = 0 := by
      have : (roundDiv N 1).2 = max (binade N 1 - 52) (-1074) := rfl
      omega
    have hM : (roundDiv N 1).1 = N * 2 ^ (-(roundDiv N 1).2).toNat := by
      unfold roundDiv
      simp only [hq0, pow_zero, Nat.mul_one, roundHalfEven_one]
    rw [hM]
    exact Dvd.dvd.mul_right (Dvd.intro_left _ rfl) _
  · have : (-(roundDiv N 1).2).toNat = 0 := by omega
    rw [this, pow_zero]
    exact one_dvd _

theorem mkRat_of_dvd (A B : Nat) (hB : 0 < B) (h : B ∣ A) :
    mkRat (A : Int) B = ((A / B : Nat) : ℚ) := by
  obtain ⟨k, rfl⟩ := h
  have hB' : (B : ℚ) ≠ 0 := by exact_mod_cast hB.ne'
  rw [Rat.mkRat_eq_div, Nat.mul_div_cancel_left k hB]
  push_cast
  field_simp

theorem mkRat_neg_of_dvd (A B : Nat) (hB : 0 < B) (h : B ∣ A) :
    mkRat (-(A : Int)) B = -((A / B : Nat) : ℚ) := by
  obtain ⟨k, rfl⟩ := h
  have hB' : (B : ℚ) ≠ 0 := by exact_mod_cast hB.ne'
  rw [Rat.mkRat_eq_div, Nat.mul_div_cancel_left k hB]
  push_cast
  field_simp
  ring

/-- Integers of magnitude below `2^53` are Numbers. -/
theorem toNumber_of_lt (z : Int) (h : z.natAbs < 2 ^ 53) : toNumber z = .int z := by
  unfold toNumber
  by_cases h0 : z = 0
  · rw [if_pos h0, h0]
  · rw [if_neg h0]
    obtain ⟨A, j, hA, hlo, hhi⟩ := nearestDouble_between z.natAbs 1 z.natAbs z.natAbs
      (by omega) (by decide) (by simp) (by simp) h
    have hAeq : A = z.natAbs * 2 ^ j := le_antisymm hhi hlo
    have hdiv : A / 2 ^ j = z.natAbs := by
      rw [hAeq]; exact Nat.mul_div_cancel _ (by positivity)
    rw [hA]
    simp only [hdiv]
    split_ifs with hneg
    · congr 1; omega
    · congr 1; omega

theorem isNumber_of_lt (z : Int) (h : z.natAbs < 2 ^ 53) : IsNumber z :=
  toNumber_of_lt z h

/-- The Number for `-v` is the negation of the Number for `v`. -/
theorem toNumber_neg_of_eq (v x : Nat) (h : toNumber (v : Int) = .int (x : Int)) :
    toNumber (-(v : Int)) = .int (-(x : Int)) := by
  unfold toNumber at h ⊢
  by_cases h0 : (v : Int) = 0
  · rw [if_pos h0] at h
    have hx : (x : Int) = 0 := (JSNum.int.inj h).symm
    rw [if_pos (by omega), hx]
    rfl
  · rw [if_neg h0] at h
    rw [if_neg (by omega)]
    have hv : 0 < v := by omega
    rw [Int.natAbs_neg]
    cases hnd : nearestDouble (v : Int).natAbs 1 with
    | none =>
      rw [hnd] at h
      simp only at h
      split_ifs at h
    | some p =>
      obtain ⟨A, B⟩ := p
      rw [hnd] at h
      simp only at h ⊢
      rw [if_neg (by omega)] at h
      rw [if_pos (by omega)]
      have := JSNum.int.inj h
      rw [this]

/-- Dividing a Number by one gives the Number back. -/
theorem divDouble_one (z : Int) (h : IsNumber z) : divDouble z 1 = .rat (z : ℚ) := by
  unfold IsNumber toNumber at h
  unfold divDouble
  by_cases h0 : z = 0
  · rw [if_pos h0, h0]; simp
  · rw [if_neg h0] at h ⊢
    cases hnd : nearestDouble z.natAbs 1 with
    | none =>
      rw [hnd] at h
      simp only at h
      split_ifs at h
    | some p =>
      obtain ⟨A, B⟩ := p
      obtain ⟨hB, hdvd⟩ := nearestDouble_one_dvd _ _ _ hnd
      rw [hnd] at h
      simp only at h ⊢
      split_ifs at h ⊢ with hneg
      · rw [mkRat_neg_of_dvd A B hB hdvd]
        have := JSNum.int.inj h
        congr 1
        rw [← this]
        simp only [Int.cast_neg, Int.cast_natCast]
      · rw [mkRat_of_dvd A B hB hdvd]
        have := JSNum.int.inj h
        congr 1
        rw [← this]
        simp only [Int.cast_neg, Int.cast_natCast]

/-- The shortest decimal of a Number reads back as that Number. -/
theorem toNumber_shortestDecimal (x : Nat) (h : IsNumber (x : Int)) :
    toNumber ((shortestDecimal x : Nat) : Int) = .int (x : Int) := by
  unfold shortestDecimal
  split_ifs with hlt
  · exact h
  · cases hf : (shortestCandidates x).find?
        (fun (v : Nat) => decide (toNumber (Int.ofNat v) = .int (Int.ofNat x))) with
    | none => exact h
    | some v =>
      have := List.find?_some hf
      simpa using this

/-! ## The decimal form of an integer and `parseInt` -/

theorem digitChar_toNat (d : Nat) (h : d < 10) : (Nat.digitChar d).toNat = 48 + d := by
  interval_cases d <;> rfl

theorem isDecimalDigit_digitChar (d : Nat) (h : d < 10) : isDecimalDigit (Nat.digitChar d) := by
  unfold isDecimalDigit
  rw [digitChar_toNat d h]
  omega

theorem digitValue_digitChar (d : Nat) (h : d < 10) : digitValue (Nat.digitChar d) = some d := by
  interval_cases d <;> rfl

/-- The characters that `Nat.toDigits 10` produces for a positive number are the
digits of `Nat.digits 10`, most significant first. -/
theorem toDigitsCore_eq_digits (fuel : Nat) :
    ∀ (n : Nat) (acc : List Char), 0 < n → n < fuel →
      Nat.toDigitsCore 10 fuel n acc
        = ((Nat.digits 10 n).reverse.map Nat.digitChar) ++ acc := by
  induction fuel with
  | zero => intro n acc _ h; omega
  | succ fuel ih =>
    intro n acc hpos hlt
    have hdig : Nat.digits 10 n = (n % 10) :: Nat.digits 10 (n / 10) :=
      Nat.digits_def' (by norm_num) hpos
    simp only [Nat.toDigitsCore]
    by_cases hq : n / 10 = 0
    · simp [hq, hdig]
    · have hq0 : 0 < n / 10 := Nat.pos_of_ne_zero hq
      have hqlt : n / 10 < fuel := by omega
      rw [if_neg hq, ih (n / 10) _ hq0 hqlt, hdig]
      simp

theorem toString_nat_toList (n : Nat) : (toString n).toList = decimalChars n := by
  show (Nat.repr n).toList = decimalChars n
  unfold decimalChars Nat.repr Nat.toDigits
  by_cases h : n = 0
  · subst h; rfl
  · rw [if_neg h, toDigitsCore_eq_digits (n + 1) n [] (Nat.pos_of_ne_zero h) (by omega)]
    simp [List.asString]

theorem decimalChars_ne_nil (n : Nat) : decimalChars n ≠ [] := by
  unfold decimalChars
  by_cases h : n = 0
  · simp [h]
  · rw [if_neg h]
    simp [Nat.digits_ne_nil_iff_ne_zero, h]

theorem decimalChars_digit (n : Nat) : ∀ c ∈ decimalChars n, isDecimalDigit c := by
  intro c hc
  unfold decimalChars at hc
  by_cases h : n = 0
  · rw [if_pos h] at hc
    simp only [List.mem_singleton] at hc
    subst hc
    exact isDecimalDigit_digitChar 0 (by norm_num)
  · rw [if_neg h] at hc
    simp only [List.mem_map, List.mem_reverse] at hc
    obtain ⟨d, hd, rfl⟩ := hc
    exact isDecimalDigit_digitChar d (Nat.digits_lt_base (by norm_num) hd)

theorem digitsToNat_append_singleton (R : Nat) (Z : List Char) (c : Char) :
    digitsToNat R (Z ++ [c]) = digitsToNat R Z * R + (digitValue c).getD 0 := by
  simp [digitsToNat, List.foldl_append]

theorem digitsToNat_reverse_map (ds : List Nat) (h : ∀ d ∈ ds, d < 10) :
    digitsToNat 10 (ds.reverse.map Nat.digitChar) = Nat.ofDigits 10 ds := by
  induction ds with
  | nil => rfl
  | cons d ds ih =>
    have hd : d < 10 := h d (List.mem_cons_self _ _)
    rw [List.reverse_cons, List.map_append, List.map_singleton, digitsToNat_append_singleton,
      ih (fun x hx => h x (List.mem_cons_of_mem _ hx)), digitValue_digitChar d hd,
      Nat.ofDigits_cons]
    simp only [Option.getD_some]
    ring

theorem digitsToNat_decimalChars (n : Nat) : digitsToNat 10 (decimalChars n) = n := by
  unfold decimalChars
  by_cases h : n = 0
  · subst h; rfl
  · rw [if_neg h, digitsToNat_reverse_map _ (fun d hd => Nat.digits_lt_base (by norm_num) hd),
      Nat.ofDigits_digits]

theorem not_whiteSpace_of_decimalDigit {c : Char} (h : isDecimalDigit c) :
    isStrWhiteSpaceChar c = false := by
  obtain ⟨h1, h2⟩ := h
  unfold isStrWhiteSpaceChar strWhiteSpaceCodes
  generalize c.toNat = k at h1 h2
  interval_cases k <;> rfl

theorem isRadixDigit_of_decimalDigit {c : Char} (h : isDecimalDigit c) :
    isRadixDigit 10 c = true := by
  obtain ⟨h1, h2⟩ := h
  unfold isRadixDigit digitValue
  simp only [h1, h2, and_self, if_true, decide_eq_true_eq]
  omega

theorem ne_of_decimalDigit {c d : Char} (h : isDecimalDigit c)
    (hd : d.toNat < 48 ∨ 57 < d.toNat) : c ≠ d := by
  rintro rfl
  obtain ⟨h1, h2⟩ := h
  omega

theorem splitSign_digits (ds : List Char) (h : ∀ c ∈ ds, isDecimalDigit c) :
    splitSign ds = (1, ds) := by
  cases ds with
  | nil => rfl
  | cons c rest =>
    have hc := h c (List.mem_cons_self _ _)
    have h1 : c ≠ '-' := ne_of_decimalDigit hc (by decide)
    have h2 : c ≠ '+' := ne_of_decimalDigit hc (by decide)
    unfold splitSign
    split <;> simp_all

theorem splitRadix_digits (ds : List Char) (h : ∀ c ∈ ds, isDecimalDigit c) :
    splitRadix ds = (10, ds) := by
  unfold splitRadix
  split
  · rename_i rest
    exact absurd rfl (ne_of_decimalDigit (h 'x' (by simp)) (by decide))
  · rename_i rest
    exact absurd rfl (ne_of_decimalDigit (h 'X' (by simp)) (by decide))
  · rfl

theorem dropWhile_whiteSpace_digits (ds : List Char) (h : ∀ c ∈ ds, isDecimalDigit c) :
    ds.dropWhile isStrWhiteSpaceChar = ds := by
  cases ds with
  | nil => rfl
  | cons c rest =>
    rw [List.dropWhile_cons, not_whiteSpace_of_decimalDigit (h c (List.mem_cons_self _ _))]
    rfl

theorem takeWhile_digits (ds : List Char) (h : ∀ c ∈ ds, isDecimalDigit c) :
    ds.takeWhile (isRadixDigit 10) = ds :=
  List.takeWhile_eq_self_iff.mpr (fun c hc => isRadixDigit_of_decimalDigit (h c hc))

/-- The function `parseInt` reads the decimal form of a natural number back. -/
theorem parseIntString_nat (s : String) (n : Nat) (hs : s.toList = decimalChars n) :
    parseIntString s = toNumber (n : Int) := by
  have hd := decimalChars_digit n
  unfold parseIntString
  simp only [hs, dropWhile_whiteSpace_digits _ hd, splitSign_digits _ hd,
    splitRadix_digits _ hd, takeWhile_digits _ hd, digitsToNat_decimalChars]
  have hne := decimalChars_ne_nil n
  cases hl : decimalChars n with
  | nil => exact absurd hl hne
  | cons c rest => simp

/-- The function `parseInt` reads `-` followed by the decimal form of a natural
number back. -/
theorem parseIntString_neg (s : String) (n : Nat) (hs : s.toList = '-' :: decimalChars n) :
    parseIntString s = toNumber (-(n : Int)) := by
  have hd := decimalChars_digit n
  unfold parseIntString
  have h1 : ('-' :: decimalChars n).dropWhile isStrWhiteSpaceChar = '-' :: decimalChars n := by
    rw [List.dropWhile_cons]; rfl
  have h2 : splitSign ('-' :: decimalChars n) = (-1, decimalChars n) := rfl
  simp only [hs, h1, h2, splitRadix_digits _ hd, takeWhile_digits _ hd, digitsToNat_decimalChars]
  have hne := decimalChars_ne_nil n
  cases hl : decimalChars n with
  | nil => exact absurd hl hne
  | cons c rest => simp

theorem toString_int_toList (n : Int) :
    (toString n).toList =
      match n with
      | Int.ofNat m => decimalChars m
      | Int.negSucc m => '-' :: decimalChars (m + 1) := by
  cases n with
  | ofNat m => exact toString_nat_toList m
  | negSucc m =>
    show ("-" ++ toString (m + 1)).toList = _
    have h := toString_nat_toList (m + 1)
    simp only [String.toList] at h ⊢
    rw [String.data_append, h]
    rfl

/-- Round trip: `parseInt` of the decimal form of an integer is that integer. -/
theorem isNumber_natAbs (n : Int) (h : IsNumber n) : IsNumber (n.natAbs : Int) := by
  by_cases hn : 0 ≤ n
  · rw [Int.natAbs_of_nonneg hn]; exact h
  · have hneg : n = -(n.natAbs : Int) := by omega
    unfold IsNumber toNumber at h ⊢
    have h0 : n ≠ 0 := by omega
    have h0' : (n.natAbs : Int) ≠ 0 := by omega
    rw [if_neg h0] at h
    rw [if_neg h0', Int.natAbs_ofNat]
    cases hnd : nearestDouble n.natAbs 1 with
    | none =>
      rw [hnd] at h
      simp only at h
      split_ifs at h
    | some p =>
      obtain ⟨A, B⟩ := p
      rw [hnd] at h
      simp only at h ⊢
      rw [if_pos (by omega)] at h
      rw [if_neg (by omega)]
      have := JSNum.int.inj h
      congr 1
      omega

/-- The string of a Number of magnitude below `10^21` is the plain decimal
form of its shortest decimal. -/
theorem numberToString_lt (n : Int) (hlt : n.natAbs < 10 ^ 21) :
    (numberToString (.int n)).toList =
      if n < 0 then '-' :: decimalChars (shortestDecimal n.natAbs)
      else decimalChars (shortestDecimal n.natAbs) := by
  simp only [numberToString, natToString, if_pos hlt]
  split_ifs with hneg
  · have h := toString_nat_toList (shortestDecimal n.natAbs)
    simp only [String.toList] at h ⊢
    rw [String.data_append, h]
    rfl
  · exact toString_nat_toList _

/-- Round trip: `parseInt` of a Number of magnitude below `10^21` is that Number. -/
theorem parseInt_num_int (n : Int) (h : IsNumber n) (hlt : n.natAbs < 10 ^ 21) :
    parseInt (.num (.int n)) = .int n := by
  have hs := numberToString_lt n hlt
  have hx := toNumber_shortestDecimal n.natAbs (isNumber_natAbs n h)
  show parseIntString (numberToString (.int n)) = .int n
  by_cases hneg : n < 0
  · rw [if_pos hneg] at hs
    rw [parseIntString_neg _ _ hs, toNumber_neg_of_eq _ _ hx]
    congr 1
    omega
  · rw [if_neg hneg] at hs
    rw [parseIntString_nat _ _ hs, hx]
    congr 1
    omega

/-- The function `parseInt` reads the decimal form of an integer as the Number
nearest to it. -/
theorem parseIntString_toString (n : Int) : parseIntString (toString n) = toNumber n := by
  cases n with
  | ofNat m => exact parseIntString_nat _ m (toString_nat_toList m)
  | negSucc m =>
    have h := parseIntString_neg (toString (Int.negSucc m)) (m + 1) (toString_int_toList _)
    rw [h]
    rfl

theorem parseInt_str_toString (n : Int) (h : IsNumber n) :
    parseInt (.str (toString n)) = .int n :=
  (parseIntString_toString n).trans h

/-- Below `2^53` the string of a Number is the decimal form of the integer. -/
theorem numberToString_safe (n : Int) (h : n.natAbs < 2 ^ 53) :
    numberToString (.int n) = toString n := by
  have hlt : n.natAbs < 10 ^ 21 := lt_trans h (by norm_num)
  have hsd : shortestDecimal n.natAbs = n.natAbs := by
    unfold shortestDecimal
    rw [if_pos h]
  simp only [numberToString, natToString, if_pos hlt, hsd]
  cases n with
  | ofNat m => rfl
  | negSucc m =>
    rw [if_pos (Int.negSucc_lt_zero m)]
    rfl

/-! ## The operations on a configured store -/

theorem saveUserRating_ok (w : World) (userId : String) (movieId rating : JSValue)
    (hdb : w.db = true) (hf : w.fault = none) :
    saveUserRating w userId movieId rating =
      (.ok { success := true, id := userId ++ "_" ++ numberToString (parseInt movieId) },
        { w with
          calls := w.calls ++
            [Call.setDoc ⟨"ratings", userId ++ "_" ++ numberToString (parseInt movieId)⟩]
          docs := w.docs.insert ⟨"ratings", userId ++ "_" ++ numberToString (parseInt movieId)⟩
            { userId := userId
              movieId := parseInt movieId
              rating := parseInt rating
              createdAt := w.clock
              updatedAt := w.clock } }) := by
  simp [saveUserRating, setDoc, doc, serverTimestamp, hdb, hf]

theorem saveUserRating_db (w : World) (userId : String) (movieId rating : JSValue) :
    (saveUserRating w userId movieId rating).2.db = w.db := by
  obtain ⟨db, docs, clock, fault, calls, console⟩ := w
  cases db <;> cases fault <;> rfl

theorem saveUserRating_fault_eq (w : World) (userId : String) (movieId rating : JSValue) :
    (saveUserRating w userId movieId rating).2.fault = w.fault := by
  obtain ⟨db, docs, clock, fault, calls, console⟩ := w
  cases db <;> cases fault <;> rfl

theorem saveUserRating_docs (w : World) (userId : String) (movieId rating : JSValue)
    (hdb : w.db = true) (hf : w.fault = none) :
    (saveUserRating w userId movieId rating).2.docs =
      w.docs.insert ⟨"ratings", userId ++ "_" ++ numberToString (parseInt movieId)⟩
        { userId := userId
          movieId := parseInt movieId
          rating := parseInt rating
          createdAt := w.clock
          updatedAt := w.clock } := by
  rw [saveUserRating_ok w userId movieId rating hdb hf]

theorem saveUserRating_fault (w : World) (userId : String) (movieId rating : JSValue)
    (e : JSError) (hdb : w.db = true) (hf : w.fault = some e) :
    saveUserRating w userId movieId rating =
      (.error e,
        { w with
          calls := w.calls ++
            [Call.setDoc ⟨"ratings", userId ++ "_" ++ numberToString (parseInt movieId)⟩]
          console := w.console ++ [("Error saving rating:", e)] }) := by
  simp [saveUserRating, setDoc, doc, consoleError, hdb, hf]

theorem getUserRating_ok (w : World) (userId : String) (movieId : JSValue)
    (hdb : w.db = true) (hf : w.fault = none) :
    getUserRating w userId movieId =
      (.ok ((w.docs.lookup ⟨"ratings", userId ++ "_" ++ numberToString (parseInt movieId)⟩).map
          (fun data => data.rating)),
        { w with
          calls := w.calls ++
            [Call.getDoc ⟨"ratings", userId ++ "_" ++ numberToString (parseInt movieId)⟩] }) := by
  simp only [getUserRating, getDoc, doc, nullishCoalesce, hdb, hf]
  cases w.docs.lookup ⟨"ratings", userId ++ "_" ++ numberToString (parseInt movieId)⟩ <;> simp

theorem getUserRating_fault (w : World) (userId : String) (movieId : JSValue)
    (e : JSError) (hdb : w.db = true) (hf : w.fault = some e) :
    getUserRating w userId movieId =
      (.ok none,
        { w with
          calls := w.calls ++
            [Call.getDoc ⟨"ratings", userId ++ "_" ++ numberToString (parseInt movieId)⟩]
          console := w.console ++ [("Error getting rating:", e)] }) := by
  simp [getUserRating, getDoc, doc, consoleError, hdb, hf]

theorem unconfigured_read (w : World) (userId : String) (movieId : JSValue)
    (hdb : w.db = false) :
    getUserRating w userId movieId = (.ok none, w)
      ∧ getMovieAverageRating w movieId = (.ok { average := .rat 0, count := 0 }, w) := by
  simp [getUserRating, getMovieAverageRating, hdb]

theorem forEachRating_count (l : List RatingDoc) (total : JSNum) (count : Nat) :
    (forEachRating l total count).2 = count + l.length := by
  unfold forEachRating
  induction l generalizing total count with
  | nil => rfl
  | cons d l ih => simp only [List.foldl_cons, List.length_cons]; rw [ih]; omega

theorem magnitudeSum_cons (v : Int) (vs : List Int) :
    magnitudeSum (v :: vs) = v.natAbs + magnitudeSum vs := by
  simp [magnitudeSum]

theorem natAbs_le_magnitudeSum (vs : List Int) : ∀ v ∈ vs, v.natAbs ≤ magnitudeSum vs := by
  induction vs with
  | nil => intro v hv; simp at hv
  | cons a vs ih =>
    intro v hv
    rw [magnitudeSum_cons]
    rcases List.mem_cons.mp hv with rfl | hv
    · omega
    · have := ih v hv
      omega

/-- The loop adds integer ratings exactly as long as the magnitudes met so far
sum to less than `2^53`. -/
theorem forEachRating_ints (l : List RatingDoc) (vs : List Int)
    (h : l.map (fun d => d.rating) = vs.map JSNum.int) (total : Int) (count : Nat)
    (hb : total.natAbs + magnitudeSum vs < 2 ^ 53) :
    forEachRating l (.int total) count = (.int (total + vs.sum), count + vs.length) := by
  unfold forEachRating
  induction l generalizing vs total count with
  | nil =>
    cases vs with
    | nil => simp
    | cons v vs => simp at h
  | cons d l ih =>
    cases vs with
    | nil => simp at h
    | cons v vs =>
      simp only [List.map_cons, List.cons.injEq] at h
      rw [magnitudeSum_cons] at hb
      have hadd : (JSNum.int total).add d.rating = .int (total + v) := by
        rw [h.1]
        exact toNumber_of_lt (total + v) (by omega)
      simp only [List.foldl_cons, hadd, List.sum_cons, List.length_cons]
      rw [ih vs h.2 (total + v) (count + 1) (by omega), add_assoc, Nat.add_assoc,
        Nat.add_comm 1]

theorem runQuery_movieId (docs : Store) (name : String) (value : JSNum) :
    runQuery docs (query (collection name) "movieId" value) = whereMovieId docs name value := by
  simp [runQuery, whereMovieId, query, collection, RatingDoc.numberField]

theorem getMovieAverageRating_ok (w : World) (movieId : JSValue)
    (hdb : w.db = true) (hf : w.fault = none) :
    getMovieAverageRating w movieId =
      (.ok (if (whereMovieId w.docs "ratings" (parseInt movieId)).isEmpty then
              { average := .rat 0, count := 0 }
            else
              { average :=
                  (forEachRating (whereMovieId w.docs "ratings" (parseInt movieId)) (.int 0) 0).1.div
                    (forEachRating (whereMovieId w.docs "ratings" (parseInt movieId)) (.int 0) 0).2
                count :=
                  (forEachRating (whereMovieId w.docs "ratings" (parseInt movieId)) (.int 0) 0).2 }),
        { w with
          calls := w.calls ++ [Call.getDocs ⟨"ratings", "movieId", parseInt movieId⟩] }) := by
  simp only [getMovieAverageRating, getDocs, runQuery_movieId, hdb, hf]
  by_cases h : whereMovieId w.docs "ratings" (parseInt movieId) = [] <;>
    simp [h, query, collection]

theorem getMovieAverageRating_fault (w : World) (movieId : JSValue)
    (e : JSError) (hdb : w.db = true) (hf : w.fault = some e) :
    getMovieAverageRating w movieId =
      (.ok { average := .rat 0, count := 0 },
        { w with
          calls := w.calls ++ [Call.getDocs ⟨"ratings", "movieId", parseInt movieId⟩]
          console := w.console ++ [("Error getting average rating:", e)] }) := by
  simp [getMovieAverageRating, getDocs, consoleError, query, collection, hdb, hf]

theorem JSNum.div_int_pos (t : Int) (n : Nat) (h : 0 < n) :
    (JSNum.int t).div n = divDouble t n := by
  cases n with
  | zero => omega
  | succ c => rfl

/-- On a configured, non-failing store the average over integer ratings whose
magnitudes sum to less than `2^53` is the rounded mean. -/
theorem getMovieAverageRating_ints (w : World) (movieId : JSValue) (vs : List Int)
    (hdb : w.db = true) (hf : w.fault = none)
    (hvs : (whereMovieId w.docs "ratings" (parseInt movieId)).map (fun d => d.rating)
      = vs.map JSNum.int)
    (hb : magnitudeSum vs < 2 ^ 53) :
    (getMovieAverageRating w movieId).1 = .ok (roundedAverage vs) := by
  rw [getMovieAverageRating_ok w movieId hdb hf]
  have hlen : (whereMovieId w.docs "ratings" (parseInt movieId)).length = vs.length := by
    have := congrArg List.length hvs
    simpa using this
  simp only [forEachRating_ints _ vs hvs 0 0 (by simpa using hb), roundedAverage]
  cases hv : vs with
  | nil =>
    subst hv
    have : whereMovieId w.docs "ratings" (parseInt movieId) = [] := List.length_eq_zero.mp hlen
    simp [this]
  | cons v vs' =>
    subst hv
    have hne : whereMovieId w.docs "ratings" (parseInt movieId) ≠ [] := by
      intro h0; rw [h0] at hlen; simp at hlen
    simp only [List.isEmpty_iff, hne, if_false, zero_add, List.length_cons, Nat.succ_ne_zero]
    rw [JSNum.div_int_pos _ _ (Nat.succ_pos _)]

/-! ## Queries after a write -/

theorem whereMovieId_insert (docs : Store) (ref : DocRef) (d : RatingDoc)
    (collection : String) (value : JSNum) :
    whereMovieId (docs.insert ref d) collection value =
      (if ref.collection = collection ∧ d.movieId = value then [d] else [])
        ++ whereMovieId (docs.erase ref) collection value := by
  unfold whereMovieId
  rw [AList.insert_entries]
  by_cases h : ref.collection = collection ∧ d.movieId = value
  · simp [List.filter_cons, h, AList.erase]
  · simp [List.filter_cons, h, AList.erase]

theorem whereMovieId_empty (collection : String) (value : JSNum) :
    whereMovieId (∅ : Store) collection value = [] := rfl

theorem getMovieAverageRating_count (w : World) (movieId : JSValue)
    (hdb : w.db = true) (hf : w.fault = none) :
    ∃ a, (getMovieAverageRating w movieId).1 = .ok a
      ∧ a.count = (whereMovieId w.docs "ratings" (parseInt movieId)).length := by
  rw [getMovieAverageRating_ok w movieId hdb hf]
  refine ⟨_, rfl, ?_⟩
  by_cases h : whereMovieId w.docs "ratings" (parseInt movieId) = []
  · simp [h]
  · simp [h, forEachRating_count]

theorem afterSave_db (w : World) (userId : String) (movieId rating : JSValue) :
    (afterSave w userId movieId rating).db = w.db :=
  saveUserRating_db w userId _ _

theorem afterSave_fault (w : World) (userId : String) (movieId rating : JSValue) :
    (afterSave w userId movieId rating).fault = w.fault :=
  saveUserRating_fault_eq w userId _ _

theorem afterSave_docs (w : World) (userId : String) (movieId rating : JSValue)
    (hdb : w.db = true) (hf : w.fault = none) :
    (afterSave w userId movieId rating).docs =
      w.docs.insert ⟨"ratings", userId ++ "_" ++ numberToString (parseInt movieId)⟩
        { userId := userId, movieId := parseInt movieId, rating := parseInt rating,
          createdAt := w.clock, updatedAt := w.clock } :=
  saveUserRating_docs w userId movieId rating hdb hf

theorem getUserRating_value (w : World) (userId : String) (movieId : JSValue)
    (hdb : w.db = true) (hf : w.fault = none) :
    (getUserRating w userId movieId).1 =
      .ok ((w.docs.lookup ⟨"ratings", userId ++ "_" ++ numberToString (parseInt movieId)⟩).map
        (fun data => data.rating)) := by
  rw [getUserRating_ok w userId _ hdb hf]

/-! ## Inputs with the same integer coercion -/

theorem saveUserRating_congr (w : World) (userId : String) (m₁ m₂ r₁ r₂ : JSValue)
    (hm : parseInt m₁ = parseInt m₂) (hr : parseInt r₁ = parseInt r₂) :
    saveUserRating w userId m₁ r₁ = saveUserRating w userId m₂ r₂ := by
  unfold saveUserRating
  rw [hm, hr]

theorem getUserRating_congr (w : World) (userId : String) (m₁ m₂ : JSValue)
    (hm : parseInt m₁ = parseInt m₂) :
    getUserRating w userId m₁ = getUserRating w userId m₂ := by
  unfold getUserRating
  rw [hm]

theorem getMovieAverageRating_congr (w : World) (m₁ m₂ : JSValue)
    (hm : parseInt m₁ = parseInt m₂) :
    getMovieAverageRating w m₁ = getMovieAverageRating w m₂ := by
  unfold getMovieAverageRating
  rw [hm]

/-- The average over a single matching document whose rating is a Number. -/
theorem getMovieAverageRating_single (w : World) (movieId : JSValue) (d : RatingDoc) (r : Int)
    (hdb : w.db = true) (hf : w.fault = none)
    (hq : whereMovieId w.docs "ratings" (parseInt movieId) = [d])
    (hd : d.rating = .int r) (hr : IsNumber r) :
    (getMovieAverageRating w movieId).1 = .ok { average := .rat (r : ℚ), count := 1 } := by
  rw [getMovieAverageRating_ok w movieId hdb hf, hq]
  have hadd : (JSNum.int 0).add d.rating = .int r := by
    rw [hd]
    show toNumber (0 + r) = .int r
    rw [zero_add]
    exact hr
  simp only [List.isEmpty_cons, Bool.false_eq_true, if_false, forEachRating, List.foldl_cons,
    List.foldl_nil, hadd, zero_add]
  rw [JSNum.div_int_pos r 1 (by decide), divDouble_one r hr]

/-! ## Ratings that are not a number -/

theorem JSNum.add_nan (a : JSNum) : a.add .nan = .nan := by
  cases a <;> rfl

theorem JSNum.nan_add (a : JSNum) : JSNum.nan.add a = .nan := by
  cases a <;> rfl

theorem forEachRating_from_nan (l : List RatingDoc) (count : Nat) :
    (forEachRating l .nan count).1 = .nan := by
  unfold forEachRating
  induction l generalizing count with
  | nil => rfl
  | cons d l ih =>
    simp only [List.foldl_cons, JSNum.nan_add]
    exact ih _

theorem forEachRating_nan (l : List RatingDoc) (total : JSNum) (count : Nat)
    (h : JSNum.nan ∈ l.map (fun d => d.rating)) :
    (forEachRating l total count).1 = .nan := by
  induction l generalizing total count with
  | nil => simp at h
  | cons d l ih =>
    have hstep : forEachRating (d :: l) total count
        = forEachRating l (total.add d.rating) (count + 1) := rfl
    rw [hstep]
    simp only [List.map_cons, List.mem_cons] at h
    rcases h with h | h
    · rw [← h, JSNum.add_nan]
      exact forEachRating_from_nan l _
    · exact ih _ _ h

/-- A matching rating that is `NaN` makes the average `NaN`. -/
theorem getMovieAverageRating_nan (w : World) (movieId : JSValue)
    (hdb : w.db = true) (hf : w.fault = none)
    (h : JSNum.nan ∈ (whereMovieId w.docs "ratings" (parseInt movieId)).map
      (fun d => d.rating)) :
    ∃ a, (getMovieAverageRating w movieId).1 = .ok a ∧ a.average = .nan := by
  rw [getMovieAverageRating_ok w movieId hdb hf]
  refine ⟨_, rfl, ?_⟩
  have hne : whereMovieId w.docs "ratings" (parseInt movieId) ≠ [] := by
    intro h0
    rw [h0] at h
    simp at h
  simp only [List.isEmpty_iff, hne, if_false]
  rw [forEachRating_nan _ _ _ h]
  rfl

/-! ## Bounds on the mean -/

theorem exists_int_list (xs : List JSNum) (P : Int → Prop)
    (h : ∀ x ∈ xs, ∃ v : Int, x = .int v ∧ P v) :
    ∃ vs : List Int, xs = vs.map JSNum.int ∧ ∀ v ∈ vs, P v := by
  induction xs with
  | nil => exact ⟨[], rfl, by simp⟩
  | cons x xs ih =>
    obtain ⟨v, hx, hv⟩ := h x (List.mem_cons_self _ _)
    obtain ⟨vs, hvs, hP⟩ := ih (fun y hy => h y (List.mem_cons_of_mem _ hy))
    refine ⟨v :: vs, by rw [hx, hvs]; rfl, ?_⟩
    intro u hu
    rcases List.mem_cons.mp hu with rfl | hu
    · exact hv
    · exact hP u hu

theorem int_sum_bounds (vs : List Int) (k₁ k₂ : Int)
    (h : ∀ v ∈ vs, k₁ ≤ v ∧ v ≤ k₂) :
    k₁ * (vs.length : Int) ≤ vs.sum ∧ vs.sum ≤ k₂ * (vs.length : Int) := by
  induction vs with
  | nil => simp
  | cons v vs ih =>
    obtain ⟨h1, h2⟩ := h v (List.mem_cons_self _ _)
    obtain ⟨i1, i2⟩ := ih (fun u hu => h u (List.mem_cons_of_mem _ hu))
    simp only [List.length_cons, List.sum_cons, Nat.cast_add, Nat.cast_one]
    constructor <;> nlinarith

/-- The rounded mean of integers whose magnitudes sum to less than `2^53` is a
finite Number between any rational bounds on the integers. -/
theorem roundedMean_between (vs : List Int) (lo hi : ℚ) (hne : vs ≠ [])
    (hb : ∀ v ∈ vs, lo ≤ (v : ℚ) ∧ (v : ℚ) ≤ hi) (hsum : magnitudeSum vs < 2 ^ 53) :
    ∃ q : ℚ, divDouble vs.sum vs.length = .rat q ∧ lo ≤ q ∧ q ≤ hi := by
  have hlen : 0 < vs.length := List.length_pos.mpr hne
  have hk : ∀ v ∈ vs, max ⌈lo⌉ (-(magnitudeSum vs : Int)) ≤ v
      ∧ v ≤ min ⌊hi⌋ (magnitudeSum vs : Int) := by
    intro v hv
    obtain ⟨h1, h2⟩ := hb v hv
    have hm := natAbs_le_magnitudeSum vs v hv
    have c1 : ⌈lo⌉ ≤ v := Int.ceil_le.mpr h1
    have c2 : v ≤ ⌊hi⌋ := Int.le_floor.mpr h2
    constructor
    · apply max_le c1; omega
    · apply le_min c2; omega
  obtain ⟨s1, s2⟩ := int_sum_bounds vs _ _ hk
  obtain ⟨q, hq, q1, q2⟩ := divDouble_between vs.sum vs.length _ _ hlen s1 s2
    (by
      have : -(magnitudeSum vs : Int) ≤ max ⌈lo⌉ (-(magnitudeSum vs : Int)) := le_max_right _ _
      have h53 : ((magnitudeSum vs : Nat) : Int) < 2 ^ 53 := by exact_mod_cast hsum
      omega)
    (by
      have : min ⌊hi⌋ (magnitudeSum vs : Int) ≤ (magnitudeSum vs : Int) := min_le_right _ _
      have h53 : ((magnitudeSum vs : Nat) : Int) < 2 ^ 53 := by exact_mod_cast hsum
      omega)
  refine ⟨q, hq, ?_, ?_⟩
  · have : (lo : ℚ) ≤ ((max ⌈lo⌉ (-(magnitudeSum vs : Int)) : Int) : ℚ) :=
      le_trans (Int.le_ceil lo) (by exact_mod_cast le_max_left _ _)
    exact le_trans this q1
  · have : ((min ⌊hi⌋ (magnitudeSum vs : Int) : Int) : ℚ) ≤ hi :=
      le_trans (by exact_mod_cast min_le_left _ _) (Int.floor_le hi)
    exact le_trans q2 this

/-! ## Two saves for the same pair -/

/-- Two saves for the same pair, for any movieId and first rating. -/
theorem save_twice_general (w : World) (userId : String) (movieId r₁ : JSValue)
    (r₂ : Int) (t₂ : Timestamp) (hdb : w.db = true) (hf : w.fault = none)
    (hnum : IsNumber r₂) (hlt : r₂.natAbs < 10 ^ 21) :
    (getUserRating
        (afterSave ((afterSave w userId movieId r₁).atTime t₂) userId movieId (.num (.int r₂)))
        userId movieId).1 = .ok (some (.int r₂))
      ∧ ((afterSave ((afterSave w userId movieId r₁).atTime t₂) userId movieId
            (.num (.int r₂))).docs.entries.filter
          (fun e => e.1
            = (⟨"ratings", userId ++ "_" ++ numberToString (parseInt movieId)⟩ : DocRef)))
        = [⟨⟨"ratings", userId ++ "_" ++ numberToString (parseInt movieId)⟩,
            { userId := userId, movieId := parseInt movieId, rating := .int r₂,
              createdAt := t₂, updatedAt := t₂ }⟩]
      ∧ (afterSave ((afterSave w userId movieId r₁).atTime t₂) userId movieId
            (.num (.int r₂))).docs
        = (afterSave (w.atTime t₂) userId movieId (.num (.int r₂))).docs
      ∧ (whereMovieId
            (afterSave ((afterSave w userId movieId r₁).atTime t₂) userId movieId
              (.num (.int r₂))).docs
            "ratings" (parseInt movieId)).length
        = (whereMovieId (afterSave w userId movieId r₁).docs "ratings"
            (parseInt movieId)).length
      ∧ (w.docs = ∅ →
          (getMovieAverageRating
            (afterSave ((afterSave w userId movieId r₁).atTime t₂) userId movieId
              (.num (.int r₂)))
            movieId).1 = .ok { average := .rat (r₂ : ℚ), count := 1 }) := by
  have hdb1 : ((afterSave w userId movieId r₁).atTime t₂).db = true :=
    (afterSave_db w userId movieId r₁).trans hdb
  have hf1 : ((afterSave w userId movieId r₁).atTime t₂).fault = none :=
    (afterSave_fault w userId movieId r₁).trans hf
  have hdb2 := (afterSave_db _ userId movieId (.num (.int r₂))).trans hdb1
  have hf2 := (afterSave_fault _ userId movieId (.num (.int r₂))).trans hf1
  have hr := parseInt_num_int r₂ hnum hlt
  have hdocs1 : ((afterSave w userId movieId r₁).atTime t₂).docs
      = w.docs.insert ⟨"ratings", userId ++ "_" ++ numberToString (parseInt movieId)⟩
        { userId := userId, movieId := parseInt movieId, rating := parseInt r₁,
          createdAt := w.clock, updatedAt := w.clock } :=
    afterSave_docs w userId movieId r₁ hdb hf
  have hdocs2 : (afterSave ((afterSave w userId movieId r₁).atTime t₂) userId movieId
        (.num (.int r₂))).docs
      = w.docs.insert ⟨"ratings", userId ++ "_" ++ numberToString (parseInt movieId)⟩
        { userId := userId, movieId := parseInt movieId, rating := .int r₂,
          createdAt := t₂, updatedAt := t₂ } := by
    rw [afterSave_docs _ userId movieId _ hdb1 hf1, hdocs1, AList.insert_insert, hr]
    rfl
  have hsingle : (afterSave (w.atTime t₂) userId movieId (.num (.int r₂))).docs
      = w.docs.insert ⟨"ratings", userId ++ "_" ++ numberToString (parseInt movieId)⟩
        { userId := userId, movieId := parseInt movieId, rating := .int r₂,
          createdAt := t₂, updatedAt := t₂ } := by
    rw [afterSave_docs (w.atTime t₂) userId movieId _ hdb hf, hr]
    rfl
  refine ⟨?_, ?_, ?_, ?_, ?_⟩
  · rw [getUserRating_value _ userId movieId hdb2 hf2, hdocs2, AList.lookup_insert]
    rfl
  · rw [hdocs2, AList.insert_entries, List.filter_cons_of_pos (by simp)]
    congr 1
    rw [List.filter_eq_nil_iff]
    intro e he
    have hk : e.1 ∈ (List.kerase
        (⟨"ratings", userId ++ "_" ++ numberToString (parseInt movieId)⟩ : DocRef)
        w.docs.entries).keys := List.mem_keys_of_mem he
    have hne : e.1
        ≠ (⟨"ratings", userId ++ "_" ++ numberToString (parseInt movieId)⟩ : DocRef) := by
      rintro heq
      rw [heq] at hk
      exact List.not_mem_keys_kerase _ w.docs.nodupKeys hk
    simpa using hne
  · rw [hdocs2, hsingle]
  · rw [hdocs2, afterSave_docs w userId movieId r₁ hdb hf, whereMovieId_insert,
      whereMovieId_insert]
    simp
  · intro hempty
    have hm : whereMovieId
        (afterSave ((afterSave w userId movieId r₁).atTime t₂) userId movieId
          (.num (.int r₂))).docs
        "ratings" (parseInt movieId)
        = [{ userId := userId, movieId := parseInt movieId, rating := .int r₂,
              createdAt := t₂, updatedAt := t₂ }] := by
      rw [hdocs2, hempty, whereMovieId_insert]
      have herase : AList.erase
          (⟨"ratings", userId ++ "_" ++ numberToString (parseInt movieId)⟩ : DocRef)
          (∅ : Store) = ∅ := rfl
      rw [herase, whereMovieId_empty]
      simp
    exact getMovieAverageRating_single _ movieId _ r₂ hdb2 hf2 hm rfl hnum

/-! ## The scenario of the specification -/

/-- The ratings of movie 42 in the scenario of the specification. -/
theorem scenario_ratings :
    matchingRatings scenarioWorld.docs 42 = [JSNum.int 2, JSNum.int 4] := by
  decide

/-! # Properties of the service -/

/-- C1, refuted as stated: the integer `10^21` is a Number, and saving it as a
rating and reading it back gives 1, not `10^21`: `parseInt` converts its
argument to the string `1e+21` and reads the digit before the `e`. -/
theorem round_trip_fails_at_1e21 :
    IsNumber (10 ^ 21)
      ∧ (getUserRating
          (saveUserRating (World.fresh 0) "u1" (.num (.int 42)) (.num (.int (10 ^ 21)))).2
          "u1" (.num (.int 42))).1 = .ok (some (.int 1))
      ∧ (getUserRating
          (saveUserRating (World.fresh 0) "u1" (.num (.int 42)) (.num (.int (10 ^ 21)))).2
          "u1" (.num (.int 42))).1 ≠ .ok (some (.int (10 ^ 21))) := by
  decide

/-- C1, amended. Save-then-get round trip: on a configured store whose backend
calls do not fail, for every store state, userId, movieId (any Number or
String) and every integer Number `rating` of magnitude below `10^21` (0
included), `getUserRating(userId, movieId)` after
`saveUserRating(userId, movieId, rating)` resolves to exactly `rating`, never
to `null`. -/
theorem save_then_get_round_trip (w : World) (userId : String) (movieId : JSValue)
    (rating : Int) (hdb : w.db = true) (hf : w.fault = none)
    (hnum : IsNumber rating) (hlt : rating.natAbs < 10 ^ 21) :
    (getUserRating (saveUserRating w userId movieId (.num (.int rating))).2 userId movieId).1
      = .ok (some (.int rating)) := by
  have h1 := (saveUserRating_db w userId movieId (.num (.int rating))).trans hdb
  have h2 := (saveUserRating_fault_eq w userId movieId (.num (.int rating))).trans hf
  rw [getUserRating_value _ userId _ h1 h2, saveUserRating_docs w userId _ _ hdb hf,
    AList.lookup_insert, parseInt_num_int rating hnum hlt]
  rfl

/-- Witness of C1: user `u1` rates movie 42 with 0 on a fresh store. -/
theorem save_then_get_round_trip_witness :
    (getUserRating
        (saveUserRating (World.fresh 7) "u1" (.num (.int 42)) (.num (.int 0))).2
        "u1" (.num (.int 42))).1
      = .ok (some (.int 0)) :=
  save_then_get_round_trip (World.fresh 7) "u1" (.num (.int 42)) 0 rfl rfl
    (by decide) (by decide)

/-- C2, refuted as stated: when the second rating is the Number `10^21`,
`getUserRating` resolves to 1 after the two saves, not to `10^21`. -/
theorem overwrite_fails_at_1e21 :
    IsNumber (10 ^ 21)
      ∧ (getUserRating
          (afterSave ((afterSave (World.fresh 0) "u1" (.num (.int 42)) (.num (.int 4))).atTime 1)
            "u1" (.num (.int 42)) (.num (.int (10 ^ 21))))
          "u1" (.num (.int 42))).1 = .ok (some (.int 1))
      ∧ (getUserRating
          (afterSave ((afterSave (World.fresh 0) "u1" (.num (.int 42)) (.num (.int 4))).atTime 1)
            "u1" (.num (.int 42)) (.num (.int (10 ^ 21))))
          "u1" (.num (.int 42))).1 ≠ .ok (some (.int (10 ^ 21))) := by
  decide

/-- C2, amended. Overwrite, not accumulation: on a configured, non-failing
store, for every integer Number `movieId`, every first rating `r₁` (any Number
or String) and every integer Number `r₂` of magnitude below `10^21`, after
`saveUserRating(userId, movieId, r₁)` and then `saveUserRating(userId, movieId,
r₂)` (at any server time) the store holds exactly one document under the key
of that pair, its rating is `r₂` and `getUserRating` resolves to `r₂`; the
store is the one a single save of `r₂` would have produced, and the number of
documents with that movieId is what it was after the first save alone.
Starting from an empty store `getMovieAverageRating(movieId)` resolves to
`{average: r₂, count: 1}`. -/
theorem save_twice_overwrites (w : World) (userId : String) (movieId : Int)
    (r₁ : JSValue) (r₂ : Int) (t₂ : Timestamp) (hdb : w.db = true) (hf : w.fault = none)
    (hm : IsNumber movieId) (hnum : IsNumber r₂) (hlt : r₂.natAbs < 10 ^ 21) :
    (getUserRating
        (afterSave ((afterSave w userId (.num (.int movieId)) r₁).atTime t₂)
          userId (.num (.int movieId)) (.num (.int r₂)))
        userId (.num (.int movieId))).1 = .ok (some (.int r₂))
      ∧ ((afterSave ((afterSave w userId (.num (.int movieId)) r₁).atTime t₂)
            userId (.num (.int movieId)) (.num (.int r₂))).docs.entries.filter
          (fun e => e.1
            = (⟨"ratings",
                userId ++ "_" ++ numberToString (parseInt (.num (.int movieId)))⟩ : DocRef)))
        = [⟨⟨"ratings", userId ++ "_" ++ numberToString (parseInt (.num (.int movieId)))⟩,
            { userId := userId, movieId := parseInt (.num (.int movieId)), rating := .int r₂,
              createdAt := t₂, updatedAt := t₂ }⟩]
      ∧ (afterSave ((afterSave w userId (.num (.int movieId)) r₁).atTime t₂)
            userId (.num (.int movieId)) (.num (.int r₂))).docs
        = (afterSave (w.atTime t₂) userId (.num (.int movieId)) (.num (.int r₂))).docs
      ∧ (whereMovieId
            (afterSave ((afterSave w userId (.num (.int movieId)) r₁).atTime t₂)
              userId (.num (.int movieId)) (.num (.int r₂))).docs
            "ratings" (parseInt (.num (.int movieId)))).length
        = (whereMovieId (afterSave w userId (.num (.int movieId)) r₁).docs "ratings"
            (parseInt (.num (.int movieId)))).length
      ∧ (w.docs = ∅ →
          (getMovieAverageRating
            (afterSave ((afterSave w userId (.num (.int movieId)) r₁).atTime t₂)
              userId (.num (.int movieId)) (.num (.int r₂)))
            (.num (.int movieId))).1 = .ok { average := .rat (r₂ : ℚ), count := 1 }) :=
  have _ := hm
  save_twice_general w userId (.num (.int movieId)) r₁ r₂ t₂ hdb hf hnum hlt

/-- Witness of C2: `u1` rates movie 42 with 4 and then with 2 on a fresh store. -/
theorem save_twice_overwrites_witness :
    (getUserRating
        (afterSave ((afterSave (World.fresh 1) "u1" (.num (.int 42)) (.num (.int 4))).atTime 9)
          "u1" (.num (.int 42)) (.num (.int 2)))
        "u1" (.num (.int 42))).1 = .ok (some (.int 2)) :=
  (save_twice_overwrites (World.fresh 1) "u1" 42 (.num (.int 4)) 2 9 rfl rfl
    (by decide) (by decide) (by decide)).1

/-- C3, refuted as stated: with the ratings 1, 2 and 2 for movie 42 the service
resolves to the average 7505999378950827 / 2^52 (the Number
1.6666666666666667), not to the exact quotient 5/3 of the reference mean. -/
theorem average_is_not_exact_mean :
    matchingRatings thirdsWorld.docs 42 = [JSNum.int 2, JSNum.int 2, JSNum.int 1]
      ∧ (getMovieAverageRating thirdsWorld (.num (.int 42))).1
        = .ok { average := .rat (mkRat 7505999378950827 4503599627370496), count := 3 }
      ∧ (getMovieAverageRating thirdsWorld (.num (.int 42))).1
        ≠ .ok (referenceAverage [2, 2, 1]) := by
  have h : (getMovieAverageRating thirdsWorld (.num (.int 42))).1
      = .ok { average := .rat (mkRat 7505999378950827 4503599627370496), count := 3 } := by
    decide
  refine ⟨by decide, h, ?_⟩
  rw [h]
  intro heq
  have hq := congrArg AverageResult.average (Except.ok.inj heq)
  simp only [referenceAverage, List.length_cons, List.length_nil, List.sum_cons, List.sum_nil]
    at hq
  norm_num [Rat.mkRat_eq_div] at hq

/-- C3, amended. `getMovieAverageRating` equals the rounded mean: on a
configured, non-failing store, for an integer Number `movieId` of magnitude
below `10^21`, the count of the result is the number `n` of documents whose
movieId field equals `movieId`; if their rating fields are integers `v1..vn`
whose magnitudes sum to less than `2^53`, the result is `{average: a, count:
n}` where for `n ≥ 1` the average `a` is the Number nearest to the exact
quotient `(v1+...+vn)/n` (round to nearest, ties to even), a finite Number
that is the exact mean whenever `n` divides the sum, and for `n = 0` the
result is `{average: 0, count: 0}`; no division by zero takes place.  If one
of the rating fields is `NaN`, the average is `NaN`. -/
theorem average_eq_rounded_mean (w : World) (movieId : Int) (vs : List Int)
    (hdb : w.db = true) (hf : w.fault = none)
    (hnum : IsNumber movieId) (hlt : movieId.natAbs < 10 ^ 21) :
    (∃ a, (getMovieAverageRating w (.num (.int movieId))).1 = .ok a
        ∧ a.count = (matchingRatings w.docs movieId).length)
      ∧ (JSNum.nan ∈ matchingRatings w.docs movieId →
          ∃ a, (getMovieAverageRating w (.num (.int movieId))).1 = .ok a
            ∧ a.average = .nan)
      ∧ (matchingRatings w.docs movieId = vs.map JSNum.int → magnitudeSum vs < 2 ^ 53 →
          (getMovieAverageRating w (.num (.int movieId))).1 = .ok (roundedAverage vs)
            ∧ (vs = [] → roundedAverage vs = { average := .rat 0, count := 0 })
            ∧ (vs ≠ [] → roundedAverage vs
                = { average := divDouble vs.sum vs.length, count := vs.length })
            ∧ (vs ≠ [] → ∃ q : ℚ, divDouble vs.sum vs.length = .rat q)
            ∧ (∀ k : Int, vs ≠ [] → vs.sum = k * (vs.length : Int) →
                roundedAverage vs = { average := .rat (k : ℚ), count := vs.length })) := by
  have hp := parseInt_num_int movieId hnum hlt
  refine ⟨?_, ?_, ?_⟩
  · obtain ⟨a, ha, hc⟩ := getMovieAverageRating_count w (.num (.int movieId)) hdb hf
    refine ⟨a, ha, ?_⟩
    rw [hc, hp]
    simp [matchingRatings]
  · intro hnan
    apply getMovieAverageRating_nan w _ hdb hf
    rw [hp]
    exact hnan
  · intro hvs hb
    have hlen : ∀ h : vs ≠ [], vs.length ≠ 0 := fun h h0 => h (List.length_eq_zero.mp h0)
    refine ⟨?_, ?_, ?_, ?_, ?_⟩
    · apply getMovieAverageRating_ints w _ vs hdb hf _ hb
      rw [hp]
      exact hvs
    · rintro rfl; rfl
    · intro hne
      simp [roundedAverage, hlen hne]
    · intro hne
      obtain ⟨q, hq, _, _⟩ := roundedMean_between vs (-(magnitudeSum vs : ℚ))
        (magnitudeSum vs : ℚ) hne
        (by
          intro v hv
          have hm := natAbs_le_magnitudeSum vs v hv
          have h1 : -(magnitudeSum vs : Int) ≤ v := by omega
          have h2 : v ≤ (magnitudeSum vs : Int) := by omega
          constructor
          · exact_mod_cast h1
          · exact_mod_cast h2)
        hb
      exact ⟨q, hq⟩
    · intro k hne hk
      have hpos : 0 < vs.length := Nat.pos_of_ne_zero (hlen hne)
      have hkb : k.natAbs * vs.length ≤ magnitudeSum vs := by
        have h1 : ∀ us : List Int, (us.sum).natAbs ≤ magnitudeSum us := by
          intro us
          induction us with
          | nil => simp [magnitudeSum]
          | cons u us ih =>
            rw [List.sum_cons, magnitudeSum_cons]
            have := Int.natAbs_add_le u us.sum
            omega
        have h2 := h1 vs
        rw [hk, Int.natAbs_mul, Int.natAbs_ofNat] at h2
        exact h2
      have hk53 : k.natAbs < 2 ^ 53 := by
        have : k.natAbs * 1 ≤ k.natAbs * vs.length := Nat.mul_le_mul_left _ hpos
        omega
      simp only [roundedAverage, hlen hne, if_false]
      rw [hk, divDouble_exact k vs.length hpos (by omega) (by omega)]

/-- Witness of C3: the scenario of the specification, `{average: 3, count: 2}`. -/
theorem average_eq_rounded_mean_witness :
    (getMovieAverageRating scenarioWorld (.num (.int 42))).1 = .ok (roundedAverage [2, 4])
      ∧ roundedAverage [2, 4] = { average := .rat 3, count := 2 } :=
  ⟨((average_eq_rounded_mean scenarioWorld 42 [2, 4] rfl rfl (by decide) (by decide)).2.2
      (by decide) (by decide)).1,
    by decide⟩

/-- C4. Unconfigured store: when `db` is falsy, for all inputs `getUserRating`
resolves to `null`, `getMovieAverageRating` resolves to `{average: 0, count: 0}`
and `saveUserRating` rejects with the error `Firebase is not configured`; in
each case the world after the call is the world before it: no backend call is
made and the documents are unchanged. -/
theorem unconfigured_store (w : World) (userId : String) (movieId rating : JSValue)
    (hdb : w.db = false) :
    getUserRating w userId movieId = (.ok none, w)
      ∧ getMovieAverageRating w movieId = (.ok { average := .rat 0, count := 0 }, w)
      ∧ saveUserRating w userId movieId rating
          = (.error { message := "Firebase is not configured" }, w) := by
  simp [getUserRating, getMovieAverageRating, saveUserRating, hdb]

/-- Witness of C4: an unconfigured store that holds nothing. -/
theorem unconfigured_store_witness :
    saveUserRating { World.fresh 0 with db := false } "u1" (.num (.int 42)) (.num (.int 4))
      = (.error { message := "Firebase is not configured" },
          { World.fresh 0 with db := false }) :=
  (unconfigured_store { World.fresh 0 with db := false } "u1" (.num (.int 42)) (.num (.int 4))
    rfl).2.2

/-- C5. Write failures are always observable: on a configured store, for all
inputs, `saveUserRating` resolves to `{success: true, id}` if and only if the
backend set-document call succeeds, and if that call fails with error `e` then
`saveUserRating` rejects with the same `e`. -/
theorem save_failure_observable (w : World) (userId : String) (movieId rating : JSValue)
    (hdb : w.db = true) :
    ((∃ id, (saveUserRating w userId movieId rating).1 = .ok { success := true, id := id })
        ↔ w.fault = none)
      ∧ (∀ e, w.fault = some e → (saveUserRating w userId movieId rating).1 = .error e)
      ∧ (∀ e data, (setDoc w
              (doc "ratings" (userId ++ "_" ++ numberToString (parseInt movieId))) data).1
            = .error e →
          (saveUserRating w userId movieId rating).1 = .error e) := by
  refine ⟨⟨?_, ?_⟩, ?_, ?_⟩
  · rintro ⟨id, hid⟩
    cases hf : w.fault with
    | none => rfl
    | some e =>
      rw [saveUserRating_fault w userId movieId rating e hdb hf] at hid
      cases hid
  · intro hf
    rw [saveUserRating_ok w userId movieId rating hdb hf]
    exact ⟨_, rfl⟩
  · intro e hf
    rw [saveUserRating_fault w userId movieId rating e hdb hf]
  · intro e data hset
    cases hf : w.fault with
    | none => simp [setDoc, hf] at hset
    | some e2 =>
      simp only [setDoc, hf, Except.error.injEq] at hset
      rw [saveUserRating_fault w userId movieId rating e2 hdb hf, hset]

/-- Witness of C5: a configured store whose backend rejects the write. -/
theorem save_failure_observable_witness :
    (saveUserRating { World.fresh 0 with fault := some { message := "permission-denied" } }
        "u1" (.num (.int 42)) (.num (.int 4))).1
      = .error { message := "permission-denied" } :=
  (save_failure_observable { World.fresh 0 with fault := some { message := "permission-denied" } }
    "u1" (.num (.int 42)) (.num (.int 4)) rfl).2.1 { message := "permission-denied" } rfl

/-- C6. Read paths are fail-soft: for all inputs and every behaviour of the
backend, `getUserRating` and `getMovieAverageRating` resolve (never reject);
when the backend call fails they resolve to `null` and `{average: 0, count: 0}`,
the values they also resolve to when the store holds no matching data. -/
theorem read_paths_fail_soft (w : World) (userId : String) (movieId : JSValue) :
    (∃ v, (getUserRating w userId movieId).1 = .ok v)
      ∧ (∃ a, (getMovieAverageRating w movieId).1 = .ok a)
      ∧ (∀ e, w.fault = some e →
          (getUserRating w userId movieId).1 = .ok none
            ∧ (getMovieAverageRating w movieId).1 = .ok { average := .rat 0, count := 0 })
      ∧ (w.db = true → w.fault = none →
          w.docs.lookup ⟨"ratings", userId ++ "_" ++ numberToString (parseInt movieId)⟩ = none →
          (getUserRating w userId movieId).1 = .ok none)
      ∧ (w.db = true → w.fault = none →
          whereMovieId w.docs "ratings" (parseInt movieId) = [] →
          (getMovieAverageRating w movieId).1 = .ok { average := .rat 0, count := 0 }) := by
  cases hdb : w.db with
  | false =>
    have h := unconfigured_read w userId movieId hdb
    simp [h.1, h.2]
  | true =>
    cases hf : w.fault with
    | some e =>
      simp [getUserRating_fault w userId movieId e hdb hf,
        getMovieAverageRating_fault w movieId e hdb hf]
    | none =>
      rw [getUserRating_ok w userId movieId hdb hf, getMovieAverageRating_ok w movieId hdb hf]
      refine ⟨⟨_, rfl⟩, ⟨_, rfl⟩, ?_, ?_, ?_⟩
      · intro e he; cases he
      · intro _ _ hl; simp [hl]
      · intro _ _ hl; simp [hl]

/-- Witness of C6: a configured store whose backend fails with a network error. -/
theorem read_paths_fail_soft_witness :
    (getUserRating
        { World.fresh 3 with fault := some { message := "unavailable" } }
        "u1" (.num (.int 42))).1 = .ok none
      ∧ (getMovieAverageRating
        { World.fresh 3 with fault := some { message := "unavailable" } }
        (.num (.int 42))).1 = .ok { average := .rat 0, count := 0 } :=
  (read_paths_fail_soft
    { World.fresh 3 with fault := some { message := "unavailable" } }
    "u1" (.num (.int 42))).2.2.1 { message := "unavailable" } rfl

/-- C7, refuted as stated: for the integer `10^21` (a Number) with decimal
string form `1000000000000000000000`, saving with the string writes document
`u_1e+21` and saving with the Number writes document `u_1`; and the decimal
string of the integer `2^53 + 1` is stored as the integer `2^53`. -/
theorem numeric_strings_differ_at_1e21 :
    IsNumber (10 ^ 21)
      ∧ (saveUserRating (World.fresh 0) "u" (.str (toString (10 ^ 21 : Int)))
          (.str (toString (4 : Int)))).1 = .ok { success := true, id := "u_1e+21" }
      ∧ (saveUserRating (World.fresh 0) "u" (.num (.int (10 ^ 21))) (.num (.int 4))).1
          = .ok { success := true, id := "u_1" }
      ∧ parseInt (.str (toString (9007199254740993 : Int))) = .int 9007199254740992 := by
  decide

/-- C7, amended. Integer coercion of numeric strings: for integer Numbers `m`
and `r` of magnitude below `10^21` with decimal string forms `s` and `t`,
`saveUserRating(userId, s, t)` does exactly what `saveUserRating(userId, m, r)`
does (same result, same call, same world); on a configured, non-failing store
the document written under the key of `(userId, m)` has movieId the integer
`m` and rating the integer `r`, after which `getUserRating(userId, m)` and
`getUserRating(userId, s)` both resolve to `r`, and `getMovieAverageRating(m)`
and `getMovieAverageRating(s)` settle alike, with a count of at least one that
includes that document. -/
theorem numeric_strings_coerced (w : World) (userId : String) (m r : Int)
    (hm : IsNumber m) (hmlt : m.natAbs < 10 ^ 21)
    (hr : IsNumber r) (hrlt : r.natAbs < 10 ^ 21) :
    saveUserRating w userId (.str (toString m)) (.str (toString r))
        = saveUserRating w userId (.num (.int m)) (.num (.int r))
      ∧ (w.db = true → w.fault = none →
          (saveUserRating w userId (.str (toString m)) (.str (toString r))).2.docs.lookup
              ⟨"ratings", userId ++ "_" ++ numberToString (.int m)⟩
            = some { userId := userId, movieId := .int m, rating := .int r,
                     createdAt := w.clock, updatedAt := w.clock }
          ∧ (getUserRating
              (saveUserRating w userId (.str (toString m)) (.str (toString r))).2
              userId (.num (.int m))).1 = .ok (some (.int r))
          ∧ (getUserRating
              (saveUserRating w userId (.str (toString m)) (.str (toString r))).2
              userId (.str (toString m))).1 = .ok (some (.int r))
          ∧ getMovieAverageRating
              (saveUserRating w userId (.str (toString m)) (.str (toString r))).2
              (.num (.int m))
            = getMovieAverageRating
              (saveUserRating w userId (.str (toString m)) (.str (toString r))).2
              (.str (toString m))
          ∧ ∃ a, (getMovieAverageRating
                (saveUserRating w userId (.str (toString m)) (.str (toString r))).2
                (.str (toString m))).1 = .ok a
              ∧ 1 ≤ a.count
              ∧ a.count = (whereMovieId
                  (saveUserRating w userId (.str (toString m)) (.str (toString r))).2.docs
                  "ratings" (.int m)).length
              ∧ ({ userId := userId, movieId := .int m, rating := .int r,
                   createdAt := w.clock, updatedAt := w.clock } : RatingDoc)
                ∈ whereMovieId
                  (saveUserRating w userId (.str (toString m)) (.str (toString r))).2.docs
                  "ratings" (.int m)) := by
  have pm := parseInt_num_int m hm hmlt
  have pr := parseInt_num_int r hr hrlt
  have sm := parseInt_str_toString m hm
  have sr := parseInt_str_toString r hr
  have hsame : saveUserRating w userId (.str (toString m)) (.str (toString r))
      = saveUserRating w userId (.num (.int m)) (.num (.int r)) :=
    saveUserRating_congr w userId _ _ _ _ (sm.trans pm.symm) (sr.trans pr.symm)
  refine ⟨hsame, ?_⟩
  intro hdb hf
  have hw : (saveUserRating w userId (.str (toString m)) (.str (toString r))).2
      = afterSave w userId (.str (toString m)) (.str (toString r)) := rfl
  rw [hw]
  have hdb1 := (afterSave_db w userId (.str (toString m)) (.str (toString r))).trans hdb
  have hf1 := (afterSave_fault w userId (.str (toString m)) (.str (toString r))).trans hf
  have hdocs : (afterSave w userId (.str (toString m)) (.str (toString r))).docs
      = w.docs.insert ⟨"ratings", userId ++ "_" ++ numberToString (.int m)⟩
        { userId := userId, movieId := .int m, rating := .int r,
          createdAt := w.clock, updatedAt := w.clock } := by
    rw [afterSave_docs w userId _ _ hdb hf, sm, sr]
  have hmem : RatingDoc.mk userId (.int m) (.int r) w.clock w.clock
      ∈ whereMovieId (afterSave w userId (.str (toString m)) (.str (toString r))).docs
          "ratings" (.int m) := by
    rw [hdocs, whereMovieId_insert]
    simp
  have hget1 := getUserRating_value (afterSave w userId (.str (toString m)) (.str (toString r)))
    userId (.num (.int m)) hdb1 hf1
  rw [pm, hdocs, AList.lookup_insert] at hget1
  have hget2 : (getUserRating (afterSave w userId (.str (toString m)) (.str (toString r)))
      userId (.str (toString m))).1 = .ok (some (.int r)) := by
    rw [getUserRating_congr _ userId (.str (toString m)) (.num (.int m)) (sm.trans pm.symm)]
    exact hget1
  refine ⟨by rw [hdocs, AList.lookup_insert], hget1, hget2,
    getMovieAverageRating_congr _ _ _ (pm.trans sm.symm), ?_⟩
  obtain ⟨a, ha, hcount⟩ := getMovieAverageRating_count
    (afterSave w userId (.str (toString m)) (.str (toString r))) (.str (toString m)) hdb1 hf1
  rw [sm] at hcount
  refine ⟨a, ha, ?_, hcount, hmem⟩
  rw [hcount]
  exact List.length_pos_of_mem hmem

/-- Witness of C7: `save("u1", "42", "4")` on a fresh store, then `get("u1", 42)`. -/
theorem numeric_strings_coerced_witness :
    (getUserRating
        (saveUserRating (World.fresh 5) "u1" (.str (toString (42 : Int)))
          (.str (toString (4 : Int)))).2
        "u1" (.num (.int 42))).1 = .ok (some (.int 4)) :=
  ((numeric_strings_coerced (World.fresh 5) "u1" 42 4 (by decide) (by decide) (by decide)
    (by decide)).2 rfl rfl).2.1

/-- C8, refuted as stated: for userId `a_b` and the integer movieId `10^21` (a
Number) the save resolves to the id `a_b_1`, which is not the userId, `_` and
the decimal form of the movieId; and for the movieId `2^60` (a Number) the id
ends in the shortest digits `1152921504606847000`, not in the decimal form
`1152921504606846976`. -/
theorem save_key_at_1e21 :
    IsNumber (10 ^ 21)
      ∧ (saveUserRating (World.fresh 0) "a_b" (.num (.int (10 ^ 21))) (.num (.int 4))).1
          = .ok { success := true, id := "a_b_1" }
      ∧ compositeKey "a_b" (10 ^ 21) = "a_b_1000000000000000000000"
      ∧ (saveUserRating (World.fresh 0) "a_b" (.num (.int (10 ^ 21))) (.num (.int 4))).1
          ≠ .ok { success := true, id := compositeKey "a_b" (10 ^ 21) }
      ∧ IsNumber (2 ^ 60)
      ∧ (saveUserRating (World.fresh 0) "a_b" (.num (.int (2 ^ 60))) (.num (.int 4))).1
          = .ok { success := true, id := "a_b_1152921504606847000" }
      ∧ compositeKey "a_b" (2 ^ 60) = "a_b_1152921504606846976" := by
  decide

/-- C8, amended. Result and key of a successful save: on a configured,
non-failing store, for an integer `movieId` of magnitude below `2^53` and an
integer Number `rating` of magnitude below `10^21`,
`saveUserRating(userId, movieId, rating)` resolves to `{success: true, id}`
with `id` the userId, `_` and the decimal form of movieId; its one backend call
is a set-document on collection `ratings` at that id, after which the store
holds there the record with fields userId, movieId and rating (and the server
time), other documents being as before; `getUserRating(userId, movieId)` reads
exactly the same reference. -/
theorem save_result_and_key (w : World) (userId : String) (movieId rating : Int)
    (hdb : w.db = true) (hf : w.fault = none)
    (hm : movieId.natAbs < 2 ^ 53)
    (hr : IsNumber rating) (hrlt : rating.natAbs < 10 ^ 21) :
    (saveUserRating w userId (.num (.int movieId)) (.num (.int rating))).1
        = .ok { success := true, id := compositeKey userId movieId }
      ∧ (saveUserRating w userId (.num (.int movieId)) (.num (.int rating))).2.calls
        = w.calls ++ [Call.setDoc ⟨"ratings", compositeKey userId movieId⟩]
      ∧ (saveUserRating w userId (.num (.int movieId)) (.num (.int rating))).2.docs
        = w.docs.insert ⟨"ratings", compositeKey userId movieId⟩
            { userId := userId, movieId := .int movieId, rating := .int rating,
              createdAt := w.clock, updatedAt := w.clock }
      ∧ (saveUserRating w userId (.num (.int movieId)) (.num (.int rating))).2.docs.lookup
          ⟨"ratings", compositeKey userId movieId⟩
        = some { userId := userId, movieId := .int movieId, rating := .int rating,
                 createdAt := w.clock, updatedAt := w.clock }
      ∧ (getUserRating w userId (.num (.int movieId))).2.calls
        = w.calls ++ [Call.getDoc ⟨"ratings", compositeKey userId movieId⟩] := by
  have pm := parseInt_num_int movieId (isNumber_of_lt movieId hm)
    (lt_trans hm (by norm_num))
  have pr := parseInt_num_int rating hr hrlt
  have hkey : userId ++ "_" ++ numberToString (.int movieId) = compositeKey userId movieId := by
    rw [numberToString_safe movieId hm]
    rfl
  rw [saveUserRating_ok w userId _ _ hdb hf, getUserRating_ok w userId _ hdb hf, pm, pr, hkey]
  refine ⟨rfl, rfl, rfl, ?_, rfl⟩
  exact AList.lookup_insert _

/-- Witness of C8: userId `u1` and movieId 42 give the id `u1_42`. -/
theorem save_result_and_key_witness :
    compositeKey "u1" 42 = "u1_42"
      ∧ (saveUserRating (World.fresh 0) "u1" (.num (.int 42)) (.num (.int 4))).1
        = .ok { success := true, id := compositeKey "u1" 42 } :=
  ⟨by decide, (save_result_and_key (World.fresh 0) "u1" 42 4 rfl rfl (by decide) (by decide)
    (by decide)).1⟩

/-- C9. The composite key is collision-prone: the two distinct pairs
`("a_b", 10^21)` and `("a_b", 1)`, with a userId that contains `_` and
movieIds that are integer Numbers, get the same document key `a_b_1` from
`saveUserRating` and `getUserRating`, so that the save for the second pair
replaces the record of the first: after rating 5 for the first pair and rating
2 for the second, `getUserRating` resolves to 2 for the first pair. -/
theorem composite_key_collides :
    ∃ (u₁ u₂ : String) (m₁ m₂ : Int),
      (u₁, m₁) ≠ (u₂, m₂) ∧ '_' ∈ u₁.toList ∧ IsNumber m₁ ∧ IsNumber m₂
        ∧ u₁ ++ "_" ++ numberToString (parseInt (.num (.int m₁)))
          = u₂ ++ "_" ++ numberToString (parseInt (.num (.int m₂)))
        ∧ (saveUserRating (World.fresh 0) u₁ (.num (.int m₁)) (.num (.int 5))).1
          = (saveUserRating (World.fresh 0) u₂ (.num (.int m₂)) (.num (.int 5))).1
        ∧ (getUserRating
            (afterSave (afterSave (World.fresh 0) u₁ (.num (.int m₁)) (.num (.int 5)))
              u₂ (.num (.int m₂)) (.num (.int 2)))
            u₁ (.num (.int m₁))).1 = .ok (some (.int 2)) :=
  ⟨"a_b", "a_b", 10 ^ 21, 1, by decide, by decide, by decide, by decide, by decide, by decide,
    by decide⟩

/-- C10, refuted as stated: with six ratings of 9007199254740996 for movie 42,
all between `lo = hi = 9007199254740996`, the service resolves to the average
9007199254740994, which is below `lo`: the running total is rounded. -/
theorem average_below_ratings :
    matchingRatings sixLargeWorld.docs 42 = List.replicate 6 (JSNum.int 9007199254740996)
      ∧ (getMovieAverageRating sixLargeWorld (.num (.int 42))).1
        = .ok { average := .rat (mkRat 9007199254740994 1), count := 6 }
      ∧ mkRat 9007199254740994 1 < (9007199254740996 : ℚ) := by
  refine ⟨by decide, by decide, ?_⟩
  norm_num [Rat.mkRat_eq_div]

/-- C10, amended. The average stays within the range of the ratings it
summarises when their sum is exact: on a configured, non-failing store, for an
integer Number `movieId` of magnitude below `10^21` with at least one matching
record, if the matching ratings are integers `v1..vn` whose magnitudes sum to
less than `2^53` and each lies between the rationals `lo` and `hi`,
`getMovieAverageRating(movieId)` resolves to a count of at least 1 and a finite
average `q` with `lo ≤ q ≤ hi`. -/
theorem average_within_bounds (w : World) (movieId : Int) (vs : List Int) (lo hi : ℚ)
    (hdb : w.db = true) (hf : w.fault = none)
    (hnum : IsNumber movieId) (hlt : movieId.natAbs < 10 ^ 21)
    (hvs : matchingRatings w.docs movieId = vs.map JSNum.int)
    (hne : vs ≠ [])
    (hsum : magnitudeSum vs < 2 ^ 53)
    (hb : ∀ v ∈ vs, lo ≤ (v : ℚ) ∧ (v : ℚ) ≤ hi) :
    ∃ (q : ℚ) (n : Nat),
      (getMovieAverageRating w (.num (.int movieId))).1 = .ok { average := .rat q, count := n }
        ∧ 1 ≤ n ∧ lo ≤ q ∧ q ≤ hi := by
  have hp := parseInt_num_int movieId hnum hlt
  have hlen : vs.length ≠ 0 := fun h => hne (List.length_eq_zero.mp h)
  have hres := getMovieAverageRating_ints w (.num (.int movieId)) vs hdb hf
    (by rw [hp]; exact hvs) hsum
  obtain ⟨q, hq, h1, h2⟩ := roundedMean_between vs lo hi hne hb hsum
  refine ⟨q, vs.length, ?_, Nat.pos_of_ne_zero hlen, h1, h2⟩
  rw [hres]
  simp [roundedAverage, hlen, hq]

/-- Witness of C10: in the scenario store the ratings of movie 42 lie in the
nominal range 1 to 5, and so does their average. -/
theorem average_within_bounds_witness :
    ∃ (q : ℚ) (n : Nat),
      (getMovieAverageRating scenarioWorld (.num (.int 42))).1
          = .ok { average := .rat q, count := n }
        ∧ 1 ≤ n ∧ (1 : ℚ) ≤ q ∧ q ≤ 5 :=
  average_within_bounds scenarioWorld 42 [2, 4] 1 5 rfl rfl (by decide) (by decide)
    scenario_ratings (by decide) (by decide)
    (by
      intro v hv
      simp only [List.mem_cons, List.mem_singleton, List.not_mem_nil, or_false] at hv
      rcases hv with rfl | rfl
      · exact ⟨by norm_num, by norm_num⟩
      · exact ⟨by norm_num, by norm_num⟩)

end RatingsService
